import Mathlib

/-!
Verification development for the Snipe cross-file static-consistency checker.

The Python backend (`backend/server.py`, `backend/analyzer/*.py`,
`backend/parser/symbol_extractor.py`, `backend/graph/repo_graph.py`) is
shallow-embedded below.  Pure functions become Lean functions; the
process-wide index state of the server becomes an explicit `ServerState`
threaded through the modelled request handlers; tree-sitter parse trees
become an explicit `TSNode`/`TSForest` inductive fed through an abstract
`ParseEnv` oracle (the tree-sitter library itself is external code).
Python `float` modification times are used for ordering only and are
modelled as `Int`.
-/

namespace Snipe

/-- A function parameter record as built by the extractors
(`{"name": ..., "type": ...}`). -/
structure Param where
  name : String
  type : Option String
deriving DecidableEq, Repr

/-- `Symbol` dataclass from `parser/symbol_extractor.py`.  The `references`
field of the dataclass is always left at its default `[]` by the extractors
and is never read by any checker, so it is omitted. -/
structure Symbol where
  name : String
  kind : String
  type : Option String := none
  file_path : String := ""
  line : Nat := 0
  scope : String := ""
  array_size : Option Int := none
  params : List Param := []
deriving DecidableEq, Repr

/-- A repo-symbol record as produced by `Symbol.to_dict` (the dict shape
consumed by the checkers and the graph).  `to_dict` always emits every key,
so the keys that are always strings/ints are total here; `type` and
`array_size` may be `None` in Python and are `Option`s. -/
structure RepoSym where
  name : String
  kind : String
  type : Option String := none
  file_path : String := ""
  line : Nat := 0
  scope : String := ""
  array_size : Option Int := none
  params : List Param := []
deriving DecidableEq, Repr

/-- `Symbol.to_dict` from `parser/symbol_extractor.py`. -/
def Symbol.toDict (s : Symbol) : RepoSym :=
  ⟨s.name, s.kind, s.type, s.file_path, s.line, s.scope, s.array_size, s.params⟩

/-- `Reference` dataclass from `parser/symbol_extractor.py`. -/
structure Reference where
  name : String
  kind : String
  inferred_type : Option String := none
  line : Nat := 0
  index_value : Option Int := none
  arg_count : Option Nat := none
deriving DecidableEq, Repr

/-- `Diagnostic` dataclass from `analyzer/type_checker.py`. -/
structure Diagnostic where
  file : String
  line : Nat
  severity : String
  message : String
  code : String := ""
deriving DecidableEq, Repr

/-! ## Python dict model

The checkers build Python dicts keyed by symbol name.  A dict is modelled
as a lookup function `String → Option α`; assignment `m[k] = v` is `updF`.
-/

/-- Dict assignment `m[k] = v`. -/
def updF {α : Type} (m : String → Option α) (k : String) (v : α) :
    String → Option α :=
  fun x => if x = k then some v else m x

/-- Python string truthiness of an `Option String` value. -/
def truthy : Option String → Bool
  | some s => s ≠ ""
  | none => false

/-- `str.lower()`, character by character. -/
def lowerStr (s : String) : String :=
  String.mk (s.data.map Char.toLower)

def stripChars (cs : List Char) : List Char :=
  ((cs.dropWhile Char.isWhitespace).reverse.dropWhile Char.isWhitespace).reverse

/-- `str.strip()`: drop leading and trailing whitespace. -/
def pyStrip (s : String) : String :=
  String.mk (stripChars s.data)

/-! ## Type-consistency checker (`analyzer/type_checker.py`) -/

/-- First pass of the local type map:
`{s.name: s.type for s in buffer_symbols if s.type is not None}`
(a later entry overwrites an earlier one, as in a dict comprehension). -/
def localTypesPass1 (buf : List Symbol) : String → Option String :=
  buf.foldl
    (fun m s => match s.type with
      | some t => updF m s.name t
      | none => m)
    (fun _ => none)

/-- The local type map after the
`local_types.update((s.name, s.kind) for s in buffer_symbols if s.name not in local_types)`
pass.  The generator's membership test sees the entries `update` has already
inserted, so for untyped names the first occurrence's kind wins. -/
def localTypes (buf : List Symbol) : String → Option String :=
  buf.foldl
    (fun m s => if (m s.name).isNone then updF m s.name s.kind else m)
    (localTypesPass1 buf)

/-- `repo_by_name` of `check_type_mismatch`: skip same-file symbols, skip
falsy names, first match wins. -/
def repoByName (repo : List RepoSym) (cf : String) : String → Option RepoSym :=
  repo.foldl
    (fun m s =>
      if s.file_path = cf then m
      else if s.name ≠ "" ∧ (m s.name).isNone then updF m s.name s
      else m)
    (fun _ => none)

/-- `repo_def.get("type") or repo_def.get("kind") or ""` (the trailing
`or ""` collapses because `kind` is a total string here). -/
def repoTypeOf (s : RepoSym) : String :=
  match s.type with
  | some t => if t = "" then s.kind else t
  | none => s.kind

/-- `ref.inferred_type or local_types.get(ref.name)` with Python `or`
falsiness of `None` and `""`. -/
def refTypeOf (localT : String → Option String) (r : Reference) :
    Option String :=
  match r.inferred_type with
  | some t => if t = "" then localT r.name else some t
  | none => localT r.name

/-- One iteration of the `for ref in buffer_refs` loop of
`check_type_mismatch`. -/
def typeEmit (repoM : String → Option RepoSym) (localT : String → Option String)
    (cf : String) (r : Reference) : Option Diagnostic :=
  if r.kind = "read" ∨ r.kind = "array_access" then
    match repoM r.name with
    | some rd =>
      let repoType := repoTypeOf rd
      match refTypeOf localT r with
      | some rt =>
        if rt ≠ "" ∧ repoType ≠ "" ∧ pyStrip rt ≠ pyStrip repoType then
          some ⟨cf, r.line, "WARNING",
            "'" ++ r.name ++ "' is declared as " ++ repoType ++ " in " ++
              rd.file_path ++ ":" ++ toString rd.line ++ " but used as " ++
              rt ++ " here.",
            "SNIPE_TYPE_MISMATCH"⟩
        else none
      | none => none
    | none => none
  else none

/-- `check_type_mismatch` from `analyzer/type_checker.py`. -/
def check_type_mismatch (buffer_refs : List Reference)
    (buffer_symbols : List Symbol) (repo_symbols : List RepoSym)
    (current_file : String) : List Diagnostic :=
  buffer_refs.filterMap
    (typeEmit (repoByName repo_symbols current_file)
      (localTypes buffer_symbols) current_file)

/-! ## Array-bounds checker (`analyzer/bounds_checker.py`) -/

/-- The `size_by_name`/`def_file`/`def_line` dicts of `check_array_bounds`
merged into one map (all three are written together under the same
condition): repo symbols first, then buffer symbols, assignment
overwriting. -/
def sizesMap (repo : List RepoSym) (buf : List Symbol) (cf : String) :
    String → Option (Int × String × Nat) :=
  buf.foldl
    (fun m s => match s.array_size with
      | some z =>
        updF m s.name (z, (if s.file_path = "" then cf else s.file_path), s.line)
      | none => m)
    (repo.foldl
      (fun m s => match s.array_size with
        | some z => updF m s.name (z, s.file_path, s.line)
        | none => m)
      (fun _ => none))

/-- One iteration of the `for ref in buffer_refs` loop of
`check_array_bounds`. -/
def boundsEmit (sizes : String → Option (Int × String × Nat)) (cf : String)
    (r : Reference) : Option Diagnostic :=
  if r.kind = "array_access" then
    match r.index_value with
    | some i =>
      match sizes r.name with
      | some (n, df, dl) =>
        if i < 0 ∨ n ≤ i then
          some ⟨cf, r.line, "ERROR",
            "Index " ++ toString i ++ " exceeds declared size " ++ toString n ++
              " for '" ++ r.name ++ "' (declared in " ++ df ++ ":" ++
              toString dl ++ ").",
            "SNIPE_ARRAY_BOUNDS"⟩
        else none
      | none => none
    | none => none
  else none

/-- `check_array_bounds` from `analyzer/bounds_checker.py`. -/
def check_array_bounds (buffer_refs : List Reference)
    (buffer_symbols : List Symbol) (repo_symbols : List RepoSym)
    (current_file : String) : List Diagnostic :=
  buffer_refs.filterMap (boundsEmit (sizesMap repo_symbols buffer_symbols current_file) current_file)

/-! ## Signature-drift checker (`analyzer/signature_checker.py`) -/

/-- The `funcs` dict of `check_function_signatures`: repo functions by name,
inserted when absent, overwritten by a same-file definition. -/
def funcsMap (repo : List RepoSym) (cf : String) : String → Option RepoSym :=
  repo.foldl
    (fun m s =>
      if s.kind ≠ "function" then m
      else if s.name = "" then m
      else if (m s.name).isNone ∨ s.file_path = cf then updF m s.name s
      else m)
    (fun _ => none)

/-- One iteration of the `for ref in buffer_refs` loop of
`check_function_signatures`. -/
def sigEmit (funcs : String → Option RepoSym) (cf : String) (r : Reference) :
    Option Diagnostic :=
  if r.kind = "call" then
    match r.arg_count with
    | some a =>
      match funcs r.name with
      | some fd =>
        if a ≠ fd.params.length then
          some ⟨cf, r.line, "WARNING",
            "Function '" ++ r.name ++ "' expects " ++ toString fd.params.length ++
              " argument(s) but " ++ toString a ++ " provided (see " ++
              fd.file_path ++ ":" ++ toString fd.line ++ ").",
            "SNIPE_SIGNATURE_DRIFT"⟩
        else none
      | none => none
    | none => none
  else none

/-- `check_function_signatures` from `analyzer/signature_checker.py`.  Note:
the accepted argument count is the exact total parameter count; there is no
`has_default`/`is_variadic` handling and the `Symbol` model of
`symbol_extractor.py` has no such fields. -/
def check_function_signatures (buffer_refs : List Reference)
    (repo_symbols : List RepoSym) (current_file : String) : List Diagnostic :=
  buffer_refs.filterMap (sigEmit (funcsMap repo_symbols current_file) current_file)

/-! ## Diagnostic aggregator (`server.py`, end of `analyze`) -/

/-- The deduplication key `(d.file, d.line, d.code, d.message)` used by the
aggregation loop in `analyze`. -/
def diagKey (d : Diagnostic) : String × Nat × String × String :=
  (d.file, d.line, d.code, d.message)

/-- The `for d in diagnostics` deduplication loop of `analyze`, with the
Python `seen` set modelled as the list of keys inserted so far. -/
def dedupGo (seen : List (String × Nat × String × String)) :
    List Diagnostic → List Diagnostic
  | [] => []
  | d :: ds =>
    if diagKey d ∈ seen then dedupGo seen ds
    else d :: dedupGo (diagKey d :: seen) ds

/-- The diagnostic aggregator of `analyze`: deduplicate by
`(file, line, code, message)`, keeping first occurrences. -/
def dedupDiagnostics (l : List Diagnostic) : List Diagnostic :=
  dedupGo [] l

/-- Modelled from the spec (§4.5): keep, for each key, only its first
occurrence in emission order, dropping subsequent duplicates.  Used as the
spec-side reference point for the aggregator. -/
def firstOccurrences : List Diagnostic → List Diagnostic
  | [] => []
  | d :: ds =>
    d :: firstOccurrences (ds.filter (fun e => decide (diagKey e ≠ diagKey d)))
termination_by l => l.length
decreasing_by
  simp only [List.length_cons]
  exact Nat.lt_succ_of_le (List.length_filter_le _ _)

/-! ## Tree-sitter tree model (`parser/symbol_extractor.py`)

A parse tree is modelled in first-child/next-sibling form: `TS.node`
carries the node's type string, its field name relative to its parent
(tree-sitter's `child_by_field_name` liaison), its source text
(`_source_at`), its 1-based line (`_line_of`), its first child and its
next sibling; `TS.leafEnd` terminates a sibling chain.  The tree-sitter
library itself is external code: parsing is an oracle (`ParseEnv`) that
maps a source string to a root node (or `none` for a missing/failed
parse), and the extraction walks below are the translation of the Python
walks over whatever tree the oracle returns. -/

inductive TS : Type where
  | leafEnd : TS
  | node (ty : String) (fieldTag : Option String) (text : String)
      (line : Nat) (children : TS) (next : TS) : TS
deriving DecidableEq, Repr

def TS.ty : TS → String
  | .leafEnd => ""
  | .node t _ _ _ _ _ => t

def TS.text : TS → String
  | .leafEnd => ""
  | .node _ _ tx _ _ _ => tx

def TS.line : TS → Nat
  | .leafEnd => 0
  | .node _ _ _ ln _ _ => ln

def TS.children : TS → TS
  | .leafEnd => .leafEnd
  | .node _ _ _ _ ch _ => ch

/-- Cut a node loose from its sibling chain (used for the root, and when a
single node is handed to a sub-walk). -/
def severNext : TS → TS
  | .leafEnd => .leafEnd
  | .node t f tx ln ch _ => .node t f tx ln ch .leafEnd

/-- `node.child_by_field_name(f)`: first child in the chain carrying the
field name. -/
def childF (f : String) : TS → Option TS
  | .leafEnd => none
  | n@(.node _ fd _ _ _ next) =>
    if fd == some f then some n else childF f next

/-- First child in the chain with the given node type. -/
def childTy (t : String) : TS → Option TS
  | .leafEnd => none
  | n@(.node ty _ _ _ _ next) =>
    if ty = t then some n else childTy t next

/-- Number of nodes in a sibling chain (`node.child_count`). -/
def chainLength : TS → Nat
  | .leafEnd => 0
  | .node _ _ _ _ _ next => chainLength next + 1

/-- Positional child access (`node.children[i]`). -/
def chainGet : TS → Nat → Option TS
  | .leafEnd, _ => none
  | n@(.node _ _ _ _ _ _), 0 => some n
  | .node _ _ _ _ _ next, i + 1 => chainGet next i

/-- The parse oracle: `getParser lang` models `_get_parser` grammar
availability, `parse p source` models `parser.parse(...).root_node`
(`none` when the root is absent). -/
structure ParseEnv where
  getParser : String → Option Nat
  parse : Nat → String → Option TS

/-- `_get_parser(lang_name)`: only `"python"` and `"c"` are known. -/
def getParserFor (env : ParseEnv) (l : String) : Option Nat :=
  if l = "python" then env.getParser "python"
  else if l = "c" then env.getParser "c"
  else none

/-- `name.startswith("_")`. -/
def startsWithUnderscore (s : String) : Bool :=
  match s.data with
  | c :: _ => c = '_'
  | [] => false

/-- Keep the characters after the last path separator. -/
def afterLastSlash (cs : List Char) : List Char :=
  cs.foldl (fun acc c => if c = '/' then [] else acc ++ [c]) []

/-- `pathlib.Path(p).suffix`: the final component's extension from its
last dot, empty when the dot is leading or trailing. -/
def pathSuffix (p : String) : String :=
  let name := afterLastSlash p.data
  match name.reverse.findIdx? (fun c => c = '.') with
  | some j =>
    let i := name.length - 1 - j
    if 0 < i ∧ i < name.length - 1 then String.mk (name.drop i) else ""
  | none => ""

/-! ## Integer-literal parsing (`int(s, 0)` / `int(s, 10)`) -/

def digitVal (c : Char) : Nat :=
  if c.isDigit then c.toNat - '0'.toNat
  else if 'a' ≤ c ∧ c ≤ 'f' then 10 + (c.toNat - 'a'.toNat)
  else if 'A' ≤ c ∧ c ≤ 'F' then 10 + (c.toNat - 'A'.toNat)
  else 0

def isDigitIn (base : Nat) (c : Char) : Bool :=
  if base = 16 then c.isDigit || ('a' ≤ c ∧ c ≤ 'f') || ('A' ≤ c ∧ c ≤ 'F')
  else if base = 8 then '0' ≤ c ∧ c ≤ '7'
  else if base = 2 then c = '0' ∨ c = '1'
  else c.isDigit

def parseBase (base : Nat) (cs : List Char) : Option Nat :=
  if cs ≠ [] ∧ cs.all (isDigitIn base) then
    some (cs.foldl (fun acc c => acc * base + digitVal c) 0)
  else none

/-- The magnitude of a Python integer literal in base-0 mode: `0x`/`0o`/
`0b` prefixes, plain zero, or a decimal without a leading zero (underscore
separators are not modelled). -/
def pyInt0Core : List Char → Option Nat
  | '0' :: 'x' :: rest => parseBase 16 rest
  | '0' :: 'X' :: rest => parseBase 16 rest
  | '0' :: 'o' :: rest => parseBase 8 rest
  | '0' :: 'O' :: rest => parseBase 8 rest
  | '0' :: 'b' :: rest => parseBase 2 rest
  | '0' :: 'B' :: rest => parseBase 2 rest
  | cs =>
    if cs ≠ [] ∧ cs.all (fun c => c = '0') then some 0
    else match cs with
      | c :: rest =>
        if c.isDigit ∧ c ≠ '0' ∧ rest.all Char.isDigit then
          parseBase 10 (c :: rest)
        else none
      | [] => none

/-- `int(s, 0)`: strip whitespace, optional sign, then a base-prefixed or
decimal literal; `none` models `ValueError`. -/
def pyInt0 (s : String) : Option Int :=
  match stripChars s.data with
  | '+' :: rest => (pyInt0Core rest).map Int.ofNat
  | '-' :: rest => (pyInt0Core rest).map (fun v => -(Int.ofNat v : Int))
  | cs => (pyInt0Core cs).map Int.ofNat

/-! ## Python symbol extraction (`_extract_python_symbols`) -/

/-- Identifiers inside a tuple/list pattern. -/
def subPatternTargets (fp scope : String) (ln : Nat) : TS → List Symbol
  | .leafEnd => []
  | .node ty _ tx _ _ next =>
    (if ty = "identifier" then
      (let name := pyStrip tx
       if name ≠ "" ∧ ¬ startsWithUnderscore name then
         [⟨name, "variable", none, fp, ln, scope, none, []⟩]
       else [])
    else []) ++ subPatternTargets fp scope ln next

/-- The assignment-target loop: first plain identifier target ends the
scan (`break`); tuple/list destructuring targets contribute each inner
identifier; underscore-prefixed names are skipped. -/
def assignTargets (fp scope : String) (ln : Nat) : TS → List Symbol
  | .leafEnd => []
  | .node ty _ tx _ ch next =>
    if ty = "identifier" then
      (let name := pyStrip tx
       if name ≠ "" ∧ ¬ startsWithUnderscore name then
         [⟨name, "variable", none, fp, ln, scope, none, []⟩]
       else [])
    else if ty = "tuple_pattern" ∨ ty = "list_pattern" then
      subPatternTargets fp scope ln ch ++ assignTargets fp scope ln next
    else assignTargets fp scope ln next

/-- Parameters of a Python `def`: identifier children of the parameter
list, excluding the receiver name `self`. -/
def pyParams : TS → List Param
  | .leafEnd => []
  | .node ty _ tx _ _ next =>
    (if ty = "identifier" ∧ tx ≠ "self" then [⟨tx, none⟩] else []) ++
      pyParams next

/-- The `walk(node, scope)` of `_extract_python_symbols` over a sibling
chain: function and class definitions produce a Symbol and recurse with
the scope extended by `.<name>` (and nothing else — the Python `return`),
assignments produce their target Symbols and recurse, everything else
recurses with the same scope. -/
def pySymsChain (fp : String) (scope : String) : TS → List Symbol
  | .leafEnd => []
  | .node ty _ _ ln ch next =>
    (if ty = "function_definition" then
      match childF "name" ch with
      | some nm =>
        let name := pyStrip nm.text
        let params :=
          match childF "parameters" ch with
          | some ps => pyParams ps.children
          | none => []
        let inner := if scope ≠ "" then scope ++ "." ++ name else name
        ⟨name, "function", none, fp, ln, scope, none, params⟩ ::
          pySymsChain fp inner ch
      | none => []
    else if ty = "class_definition" then
      match childF "name" ch with
      | some nm =>
        let name := pyStrip nm.text
        let inner := if scope ≠ "" then scope ++ "." ++ name else name
        ⟨name, "class", none, fp, ln, scope, none, []⟩ ::
          pySymsChain fp inner ch
      | none => []
    else if ty = "assignment" then
      assignTargets fp scope ln ch ++ pySymsChain fp scope ch
    else pySymsChain fp scope ch) ++
    pySymsChain fp scope next

/-- `_extract_python_symbols`: grammar missing or no parse root yields an
empty sequence. -/
def extractPythonSymbols (env : ParseEnv) (source : String) (fp : String) :
    List Symbol :=
  match getParserFor env "python" with
  | none => []
  | some p =>
    match env.parse p source with
    | none => []
    | some root => pySymsChain fp "" (severNext root)

/-! ## C symbol extraction (`_extract_c_symbols`) -/

/-- Whether a sibling chain is non-empty (`c.child_count` truthiness). -/
def chainNonEmpty : TS → Bool
  | .leafEnd => false
  | .node _ _ _ _ _ _ => true

/-- `get_type_str`: collect type-specifier texts of the children, with a
`*` marker for a pointer declarator that has children. -/
def typeParts : TS → List String
  | .leafEnd => []
  | .node ty _ tx _ ch next =>
    (if ty = "primitive_type" ∨ ty = "sized_type_specifier" ∨
        ty = "type_identifier" ∨ ty = "struct_specifier"
      then [pyStrip tx] else []) ++
    (if ty = "pointer_declarator" ∧ chainNonEmpty ch then ["*"] else []) ++
    typeParts next

def joinSpace : List String → String
  | [] => ""
  | [s] => s
  | s :: rest => s ++ " " ++ joinSpace rest

def getTypeStr (n : TS) : String :=
  match typeParts n.children with
  | [] => "int"
  | parts => joinSpace parts

/-- `get_array_size_from_declarator` scanning a sibling chain: at the
first `array_declarator`, try the `size` field as an integer literal, then
the first `number_literal` child (a parse failure there returns `None`
for good), then recurse into the node's children looking for a nested
`array_declarator`. -/
def arrSizeChain : TS → Option Int
  | .leafEnd => none
  | .node ty _ _ _ ch next =>
    if ty = "array_declarator" then
      match childF "size" ch with
      | some sn =>
        (match pyInt0 (pyStrip sn.text) with
          | some v => some v
          | none =>
            match childTy "number_literal" ch with
            | some nl =>
              (match pyInt0 (pyStrip nl.text) with
                | some v => some v
                | none => none)
            | none => arrSizeChain ch)
      | none =>
        match childTy "number_literal" ch with
        | some nl =>
          (match pyInt0 (pyStrip nl.text) with
            | some v => some v
            | none => none)
        | none => arrSizeChain ch
    else arrSizeChain next

/-- `get_array_size_from_declarator` on a node. -/
def getArraySizeFromDeclarator (d : TS) : Option Int :=
  if d.ty = "array_declarator" then arrSizeChain (severNext d)
  else arrSizeChain d.children

/-- The child loop of `_identifier_from_declarator`: a direct identifier
child wins; otherwise a non-empty recursive result wins. -/
def identChain : TS → Option String
  | .leafEnd => none
  | .node ty _ tx _ ch next =>
    if ty = "identifier" then some (pyStrip tx)
    else match identChain ch with
      | some s => if s = "" then identChain next else some s
      | none => identChain next

/-- `_identifier_from_declarator`. -/
def identifierFromDeclarator (d : TS) : Option String :=
  if d.ty = "identifier" then some (pyStrip d.text)
  else identChain d.children

/-- The `for c in decl_list.children` loop of the declaration branch:
`init_declarator` children yield a variable/array Symbol (via the inner
declarator), bare identifier children yield a variable Symbol. -/
def declComponents (fp : String) (ln : Nat) (typeStr : String) : TS → List Symbol
  | .leafEnd => []
  | c@(.node ty _ tx _ ch next) =>
    (if ty = "init_declarator" then
      let d := (childF "declarator" ch).getD (severNext c)
      let size := getArraySizeFromDeclarator d
      match identifierFromDeclarator d with
      | some nm =>
        if nm ≠ "" then
          [⟨nm, if size.isSome then "array" else "variable", some typeStr,
            fp, ln, "", size, []⟩]
        else []
      | none => []
    else if ty = "identifier" then
      [⟨pyStrip tx, "variable", some typeStr, fp, ln, "", none, []⟩]
    else []) ++ declComponents fp ln typeStr next

/-- Parameters of a C function declarator: `parameter_declaration`
children whose declarator field is directly an identifier. -/
def cParams : TS → List Param
  | .leafEnd => []
  | pnode@(.node ty _ _ _ pch pnext) =>
    (if ty = "parameter_declaration" then
      match childF "declarator" pch with
      | some pd =>
        if pd.ty = "identifier" then [⟨pyStrip pd.text, some (getTypeStr pnode)⟩]
        else []
      | none => []
    else []) ++ cParams pnext

/-- The `function_definition` branch of the C walk. -/
def cFuncSym (fp : String) (ln : Nat) (tnode : TS) : List Symbol :=
  match childF "declarator" tnode.children with
  | some d =>
    if d.ty = "function_declarator" then
      match childF "declarator" d.children with
      | some idn =>
        if idn.ty = "identifier" then
          let params :=
            match childF "parameters" d.children with
            | some ps => cParams ps.children
            | none => []
          [⟨pyStrip idn.text, "function", some (getTypeStr tnode), fp, ln,
            "", none, params⟩]
        else []
      | none => []
    else []
  | none => []

/-- The `walk(node)` of `_extract_c_symbols` over a sibling chain (the C
walk never returns early, so every node also recurses into its
children). -/
def cSymsChain (fp : String) : TS → List Symbol
  | .leafEnd => []
  | tnode@(.node ty _ _ ln ch next) =>
    (if ty = "function_definition" then cFuncSym fp ln tnode else []) ++
    (if ty = "declaration" then
      match (childF "declarator" ch).orElse
          (fun _ => childF "init_declarator_list" ch) with
      | some dl => declComponents fp ln (getTypeStr tnode) dl.children
      | none => []
    else []) ++
    (if ty = "struct_specifier" then
      match childF "name" ch with
      | some nm => [⟨pyStrip nm.text, "struct", some "struct", fp, ln, "", none, []⟩]
      | none => []
    else []) ++
    cSymsChain fp ch ++ cSymsChain fp next

/-- `source.decode(...).splitlines()`: split on `\n`, `\r\n`, `\r`; no
trailing empty line. -/
def splitLinesAux (cur : List Char) : List Char → List String
  | [] => if cur = [] then [] else [String.mk cur.reverse]
  | '\r' :: '\n' :: rest => String.mk cur.reverse :: splitLinesAux [] rest
  | '\n' :: rest => String.mk cur.reverse :: splitLinesAux [] rest
  | '\r' :: rest => String.mk cur.reverse :: splitLinesAux [] rest
  | c :: rest => splitLinesAux (c :: cur) rest

def splitLinesPy (s : String) : List String :=
  splitLinesAux [] s.data

/-- `\w` membership (ASCII view, as in the byte-level regex use here). -/
def isWordChar (c : Char) : Bool :=
  c.isAlphanum || c = '_'

/-- Strip a literal prefix from a character list (`none` when absent). -/
def listDropPre : List Char → List Char → Option (List Char)
  | [], cs => some cs
  | _ :: _, [] => none
  | p :: ps, c :: cs => if c = p then listDropPre ps cs else none

def skipSpaces (cs : List Char) : List Char :=
  cs.dropWhile Char.isWhitespace

/-- Match `\s*\[\s*(\d+)\s*\]` and return the captured number. -/
def bracketAfter (cs : List Char) : Option Nat :=
  match skipSpaces cs with
  | '[' :: rest =>
    let rest2 := skipSpaces rest
    let digits := rest2.takeWhile Char.isDigit
    if digits = [] then none
    else
      match skipSpaces (rest2.drop digits.length) with
      | ']' :: _ => parseBase 10 digits
      | _ => none
  | _ => none

/-- Whether a `\b` boundary precedes the scan position. -/
def boundaryOk : Option Char → Bool
  | some p => !isWordChar p
  | none => true

/-- `re.search(rb"\b<name>\s*\[\s*(\d+)\s*\]", line)`: first match wins
(maximal-munch on the identifier is equivalent here since a shorter
backtrack would have to match `\s*\[` against a word character). -/
def findBracketScan (name : List Char) (prev : Option Char) :
    List Char → Option Nat
  | [] => none
  | c :: rest =>
    if boundaryOk prev then
      match listDropPre name (c :: rest) with
      | some tail =>
        (match bracketAfter tail with
          | some v => some v
          | none => findBracketScan name (some c) rest)
      | none => findBracketScan name (some c) rest
    else findBracketScan name (some c) rest

def findBracketSize (name : String) (line : String) : Option Nat :=
  findBracketScan name.data none line.data

/-- The post-pass of `_extract_c_symbols`: for a Symbol without an
`array_size`, re-scan its declaration line for `name[<digits>]`; on a
match set the size and force `kind = "array"`. -/
def cPostPass (lines : List String) (syms : List Symbol) : List Symbol :=
  syms.map (fun s =>
    if s.array_size.isNone then
      if 1 ≤ s.line ∧ s.line - 1 < lines.length then
        match lines.get? (s.line - 1) with
        | some ln =>
          (match findBracketSize s.name ln with
            | some v => { s with array_size := some (Int.ofNat v), kind := "array" }
            | none => s)
        | none => s
      else s
    else s)

/-- `_extract_c_symbols`: grammar missing or no parse root yields an empty
sequence; otherwise the walk followed by the source-line size post-pass. -/
def extractCSymbols (env : ParseEnv) (source : String) (fp : String) :
    List Symbol :=
  match getParserFor env "c" with
  | none => []
  | some p =>
    match env.parse p source with
    | none => []
    | some root => cPostPass (splitLinesPy source) (cSymsChain fp (severNext root))

/-- `extract_symbols_from_source`: resolve the language from the extension
when not given (unknown extensions yield an empty sequence), then dispatch
(unknown explicit languages also yield an empty sequence). -/
def extract_symbols_from_source (env : ParseEnv) (source : String)
    (file_path : String) (language : Option String) : List Symbol :=
  match language with
  | none =>
    let ext := lowerStr (pathSuffix file_path)
    if ext = ".py" then extractPythonSymbols env source file_path
    else if ext = ".c" ∨ ext = ".h" then extractCSymbols env source file_path
    else []
  | some l =>
    if l = "python" then extractPythonSymbols env source file_path
    else if l = "c" then extractCSymbols env source file_path
    else []

/-! ## Reference extraction (`extract_references_from_source`) -/

/-- Argument count of a call: argument-list children that are not the
parentheses or commas. -/
def chainArgCount : TS → Nat
  | .leafEnd => 0
  | .node ty _ _ _ _ next =>
    (if ty ≠ "(" ∧ ty ≠ ")" ∧ ty ≠ "," then 1 else 0) + chainArgCount next

def argCount (args : Option TS) : Nat :=
  match args with
  | some a => chainArgCount a.children
  | none => 0

/-- The `walk(node)` of `extract_references_from_source` over a sibling
chain, carrying the parent node for the free-identifier-read test. -/
def refsChain (lang : String) (parent : Option TS) : TS → List Reference
  | .leafEnd => []
  | tnode@(.node ty _ tx ln ch next) =>
    (if ty = "call_expression" ∧ lang = "python" then
      match childF "function" ch with
      | some fn =>
        [⟨pyStrip fn.text, "call", none, ln, none,
          some (argCount (childF "arguments" ch))⟩]
      | none => []
    else []) ++
    (if ty = "call_expression" ∧ lang = "c" then
      match childF "function" ch with
      | some fn =>
        if fn.ty = "identifier" then
          [⟨pyStrip fn.text, "call", none, ln, none,
            some (argCount (childF "arguments" ch))⟩]
        else []
      | none => []
    else []) ++
    (if ty = "subscript_expression" ∧ lang = "python" then
      match childF "value" ch, childF "index" ch with
      | some obj, some idx =>
        [⟨pyStrip obj.text, "array_access", none, ln,
          pyInt0 (pyStrip idx.text), none⟩]
      | _, _ => []
    else []) ++
    (if ty = "array_declarator" ∨ (ty = "subscript_expression" ∧ lang = "c") then
      (if lang = "c" ∧ ty = "subscript_expression" then
        let arr0 := childF "argument" ch
        let idx0 := childF "index" ch
        let pair :=
          if (arr0.isNone ∨ idx0.isNone) ∧ 4 ≤ chainLength ch then
            (chainGet ch 0, chainGet ch 2)
          else (arr0, idx0)
        match pair with
        | (some arr, some idx) =>
          [⟨pyStrip arr.text, "array_access", none, ln,
            pyInt0 (pyStrip idx.text), none⟩]
        | _ => []
      else [])
    else []) ++
    (if ty = "identifier" ∧ lang = "python" then
      match parent with
      | some pnode =>
        if pnode.ty ≠ "call_expression" ∧ pnode.ty ≠ "function_definition" ∧
            pnode.ty ≠ "parameters" ∧ pnode.ty ≠ "attribute" then
          (let name := pyStrip tx
           if name ≠ "" ∧ ¬ startsWithUnderscore name then
             [⟨name, "read", none, ln, none, none⟩]
           else [])
        else []
      | none => []
    else []) ++
    refsChain lang (some tnode) ch ++ refsChain lang parent next

def isIdentStart (c : Char) : Bool :=
  c.isAlpha || c = '_'

/-- Drop leading whitespace, counting the newlines dropped. -/
def skipSpacesCount : List Char → List Char × Nat
  | [] => ([], 0)
  | c :: rest =>
    if c.isWhitespace then
      let r := skipSpacesCount rest
      (r.1, r.2 + (if c = '\n' then 1 else 0))
    else (c :: rest, 0)

/-- Try `([a-zA-Z_]\w*)\s*\[\s*(\d+)\s*\]` at the head of `cs` (which
starts with an identifier-start character): the identifier name, the
captured number, the newlines inside the match and the remainder after
it. -/
def identBracketMatch (cs : List Char) : Option (String × Nat × Nat × List Char) :=
  let ident := cs.takeWhile isWordChar
  let after := cs.drop ident.length
  let s1 := skipSpacesCount after
  match s1.1 with
  | '[' :: rest1 =>
    let s2 := skipSpacesCount rest1
    let digits := s2.1.takeWhile Char.isDigit
    if digits = [] then none
    else
      let s3 := skipSpacesCount (s2.1.drop digits.length)
      match s3.1 with
      | ']' :: rest3 =>
        (parseBase 10 digits).map
          (fun v => (String.mk ident, v, s1.2 + s2.2 + s3.2, rest3))
      | _ => none
  | _ => none

/-- The whole-file `re.finditer(rb"([a-zA-Z_][a-zA-Z0-9_]*)\s*\[\s*(\d+)\s*\]")`
fallback scan for C: non-overlapping left-to-right matches, each emitted
as an `array_access` Reference at the line of the match start.  The fuel
argument bounds the iteration count; each step consumes at least one
character, so `length + 1` fuel always suffices. -/
def cFallbackScan (fuel : Nat) (line : Nat) (cs : List Char) : List Reference :=
  match fuel with
  | 0 => []
  | fuel + 1 =>
    match cs with
    | [] => []
    | c :: rest =>
      if isIdentStart c then
        match identBracketMatch (c :: rest) with
        | some (nm, v, nl, remaining) =>
          ⟨nm, "array_access", none, line, some (Int.ofNat v), none⟩ ::
            cFallbackScan fuel (line + nl) remaining
        | none => cFallbackScan fuel line rest
      else cFallbackScan fuel (if c = '\n' then line + 1 else line) rest

def cFallback (source : String) : List Reference :=
  cFallbackScan (source.data.length + 1) 1 source.data

/-- `extract_references_from_source`: resolve the language from the
extension when not given, bail out empty when the grammar is unavailable
or the parse has no root, walk the tree, and for C append the whole-file
regex fallback. -/
def extract_references_from_source (env : ParseEnv) (source : String)
    (file_path : String) (language : Option String) : List Reference :=
  let lang : Option String :=
    match language with
    | none =>
      let ext := lowerStr (pathSuffix file_path)
      if ext = ".py" then some "python"
      else if ext = ".c" ∨ ext = ".h" then some "c"
      else none
    | some l => some l
  match lang with
  | none => []
  | some l =>
    match getParserFor env l with
    | none => []
    | some p =>
      match env.parse p source with
      | none => []
      | some root =>
        let refs := refsChain l none (severNext root)
        if l = "c" then refs ++ cFallback source else refs

/-! ## Buffer overlay merge (`server.py`, `analyze`) -/

/-- `path.replace("\x5c\x5c", "/")` (backslash-to-slash normalization). -/
def replaceBackslash (s : String) : String :=
  String.mk (s.data.map (fun c => if c = '\x5c' then '/' else c))

/-- `Path(p).relative_to(repo_path)` for the strict-subpath case; the
`ValueError` branch keeps the original path. -/
def relTo (repoPath p : String) : String :=
  match listDropPre (repoPath.data ++ ['/']) p.data with
  | some rest => String.mk rest
  | none => p

/-- The normalized live-file path of one open buffer. -/
def overlayRel (repoPath : String) (ob : String × String) : String :=
  replaceBackslash (relTo repoPath ob.1)

/-- The `overlay_files` set (as the list of normalized live paths). -/
def overlayFiles (repoPath : String) (buffers : List (String × String)) :
    List String :=
  buffers.map (overlayRel repoPath)

/-- The `overlay_symbols` list: re-extract each live content under its
normalized path, stamp the path onto each Symbol, and serialize. -/
def overlaySymbols (env : ParseEnv) (repoPath : String)
    (buffers : List (String × String)) : List RepoSym :=
  buffers.flatMap (fun ob =>
    (extract_symbols_from_source env ob.2 (overlayRel repoPath ob) none).map
      (fun s => ({ s with file_path := overlayRel repoPath ob }).toDict))

/-- The overlay block of `analyze`: drop repo symbols whose normalized
path has a live buffer, append the freshly extracted ones.  With no open
buffers the working set is the repo set unchanged. -/
def mergeOverlay (env : ParseEnv) (repoPath : String)
    (repoDicts : List RepoSym) (buffers : List (String × String)) :
    List RepoSym :=
  if buffers.isEmpty then repoDicts
  else
    (repoDicts.filter (fun s =>
      !(overlayFiles repoPath buffers).contains (replaceBackslash s.file_path)))
      ++ overlaySymbols env repoPath buffers

/-! ## Server symbol-index state (`server.py`)

The module globals `_repo_symbols`, `_repo_path`, `_repo_mtime` become an
explicit `ServerState`.  The external `build_repo_symbol_table` (code not
part of the analysed sources) is abstracted as the `built` argument: the
flat symbol list a build performed now would produce.  Modification times
are used for ordering only and are modelled as `Int`. -/

structure ServerState where
  repoSymbols : List RepoSym
  repoPath : Option String
  repoMtime : Int
deriving DecidableEq, Repr

/-- The initial module state: `_repo_symbols = []`, `_repo_path = None`,
`_repo_mtime = 0.0`. -/
def initialState : ServerState := ⟨[], none, 0⟩

/-- One file seen by the `os.walk` in `_max_repo_mtime`: its directory
components below the walk root, its file name, and its modification time
(`none` models an `OSError` from `os.path.getmtime`). -/
structure FileEntry where
  dirs : List String
  name : String
  mtime : Option Int
deriving DecidableEq, Repr

/-- The fixed directory names pruned by the walk. -/
def ignoredDirs : List String :=
  ["node_modules", ".git", "__pycache__", ".venv", "venv", "dist", "build"]

/-- `os.path.splitext(f)[1]`: the extension of `f` starting at its last
dot, empty when the name (leading dots aside) has no dot. -/
def splitextExt (f : String) : String :=
  let cs := f.data
  let lead := (cs.takeWhile (fun c => c = '.')).length
  let rest := cs.drop lead
  match rest.reverse.findIdx? (fun c => c = '.') with
  | some j => String.mk (rest.drop (rest.length - (j + 1)))
  | none => ""

/-- `ext in (".c", ".h", ".py")` after `os.path.splitext(...)[1].lower()`. -/
def supportedExt (f : String) : Bool :=
  let e := lowerStr (splitextExt f)
  e == ".c" || e == ".h" || e == ".py"

/-- Whether the walk reaches a file and its extension is recognized:
no path component is a pruned directory name and the extension maps to a
known language. -/
def walkIncluded (fe : FileEntry) : Bool :=
  fe.dirs.all (fun d => !ignoredDirs.contains d) && supportedExt fe.name

/-- The `if mt > max_mt: max_mt = mt` update of `_max_repo_mtime`,
skipping files the walk prunes and files whose `getmtime` raises. -/
def mtStep (acc : Int) (fe : FileEntry) : Int :=
  if walkIncluded fe then
    match fe.mtime with
    | some mt => if acc < mt then mt else acc
    | none => acc
  else acc

def maxMtGo : Int → List FileEntry → Int
  | acc, [] => acc
  | acc, fe :: rest => maxMtGo (mtStep acc fe) rest

/-- `_max_repo_mtime` from `server.py`: maximum modification time across
recognized files, starting from `0.0`. -/
def maxRepoMtime (fs : List FileEntry) : Int :=
  maxMtGo 0 fs

/-- `_ensure_repo_symbols` from `server.py`.  `fs` is the repository's
current file listing (consumed by `_max_repo_mtime`); `built` abstracts the
result `build_repo_symbol_table` would return now. -/
def ensureRepoSymbols (st : ServerState) (repoPath : String) (force : Bool)
    (fs : List FileEntry) (built : List RepoSym) :
    List RepoSym × ServerState :=
  if force = true ∨ st.repoPath ≠ some repoPath ∨ st.repoSymbols = [] ∨
      st.repoMtime < maxRepoMtime fs then
    (built, ⟨built, some repoPath, maxRepoMtime fs⟩)
  else
    (st.repoSymbols, st)

/-- `refresh` from `server.py`: rebuild unconditionally, store the symbols
and the path.  Only `_repo_symbols` and `_repo_path` are declared `global`
and assigned; `_repo_mtime` is left untouched. -/
def refreshEndpoint (st : ServerState) (repoPath : String)
    (built : List RepoSym) : (Nat × String) × ServerState :=
  ((built.length, repoPath), ⟨built, some repoPath, st.repoMtime⟩)

/-- The `analyze` handler's effect on the working symbol set and on the
process state: `_ensure_repo_symbols` may rebuild the shared index, and
the overlay merge is a request-scoped transformation of a copy — it never
writes the state. -/
def analyzeWorkingSet (env : ParseEnv) (st : ServerState) (repoPath : String)
    (fs : List FileEntry) (built : List RepoSym)
    (buffers : List (String × String)) : List RepoSym × ServerState :=
  (mergeOverlay env repoPath (ensureRepoSymbols st repoPath false fs built).1
      buffers,
   (ensureRepoSymbols st repoPath false fs built).2)

/-! ## Repository graph (`graph/repo_graph.py`) -/

structure GNode where
  id : String
  label : String
  kind : String
  type : Option String
  file_path : String
  line : Nat
deriving DecidableEq, Repr

structure GEdge where
  source : String
  target : String
  type : String
deriving DecidableEq, Repr

/-- `f"{s.get('file_path','')}:{s.get('line',0)}:{s.get('name','')}"`. -/
def nodeId (s : RepoSym) : String :=
  s.file_path ++ ":" ++ toString s.line ++ ":" ++ s.name

def toNode (s : RepoSym) : GNode :=
  ⟨nodeId s, s.name, s.kind, s.type, s.file_path, s.line⟩

/-- The node-building loop of `build_repo_graph`: skip ids already in
`by_id`, keep first occurrences. -/
def nodesGo (seen : List String) : List RepoSym → List GNode
  | [] => []
  | s :: rest =>
    if nodeId s ∈ seen then nodesGo seen rest
    else toNode s :: nodesGo (nodeId s :: seen) rest

/-- `name_to_ids.setdefault(name, []).append(nid)`: append `v` to the
first group keyed `k`, or start a new group at the end. -/
def insertAppend (acc : List (String × List String)) (k : String) (v : String) :
    List (String × List String) :=
  match acc with
  | [] => [(k, [v])]
  | (k', vs) :: rest =>
    if k' = k then (k', vs ++ [v]) :: rest
    else (k', vs) :: insertAppend rest k v

/-- The `name_to_ids` dict of `build_repo_graph` (insertion-ordered; the
`node.get("label") or ""` collapses because `label` is total here). -/
def nameToIds (nodes : List GNode) : List (String × List String) :=
  nodes.foldl (fun acc nd => insertAppend acc nd.label nd.id) []

/-- The nested `for i, a ... for b in nids[i+1:]` pair loop. -/
def pairEdges : List String → List GEdge
  | [] => []
  | a :: rest => rest.map (fun b => ⟨a, b, "REFERENCES"⟩) ++ pairEdges rest

/-- `build_repo_graph` from `graph/repo_graph.py` (the `nodes`/`edges`
payload; names with fewer than two ids are skipped by the
`if len(nids) < 2: continue`). -/
def build_repo_graph (symbols : List RepoSym) : List GNode × List GEdge :=
  (nodesGo [] symbols,
   (nameToIds (nodesGo [] symbols)).flatMap
     (fun g => if g.2.length < 2 then [] else pairEdges g.2))

/-- Dict lookup on the insertion-ordered `name_to_ids` association list. -/
def assocFind (acc : List (String × List String)) (k : String) :
    Option (List String) :=
  (acc.find? (fun g => g.1 == k)).map (fun g => g.2)

/-- The entry a repo symbol contributes to the bounds checker's size map. -/
def sizeEntryR (s : RepoSym) : Option (String × (Int × String × Nat)) :=
  s.array_size.map (fun z => (s.name, (z, s.file_path, s.line)))

/-- The entry a buffer symbol contributes to the bounds checker's size map
(`def_file[s.name] = s.file_path or current_file`). -/
def sizeEntryB (cf : String) (s : Symbol) :
    Option (String × (Int × String × Nat)) :=
  s.array_size.map
    (fun z => (s.name, (z, (if s.file_path = "" then cf else s.file_path), s.line)))

/-- The entry a repo symbol contributes to the type checker's
`repo_by_name` map. -/
def repoNameEntry (cf : String) (s : RepoSym) : Option (String × RepoSym) :=
  if s.file_path ≠ cf ∧ s.name ≠ "" then some (s.name, s) else none

/-! ## Extraction fixtures (concrete parse trees used by the
counterexample and witnesses) -/

/-- The tree-sitter parse of the Python buffer `x = 1`. -/
def pyTree : TS :=
  TS.node "module" none "x = 1" 1
    (TS.node "expression_statement" none "x = 1" 1
      (TS.node "assignment" none "x = 1" 1
        (TS.node "identifier" none "x" 1 .leafEnd
          (TS.node "=" none "=" 1 .leafEnd
            (TS.node "integer" none "1" 1 .leafEnd .leafEnd)))
        .leafEnd)
      .leafEnd)
    .leafEnd

def pyEnv : ParseEnv :=
  ⟨fun l => if l = "python" then some 0 else none,
   fun _ src => if src = "x = 1" then some pyTree else none⟩

/-- A one-line C program whose function-definition line also contains the
text `foo[0]` (in its body), so the post-pass size fallback fires on the
function Symbol itself. -/
def cexSource : String :=
  "int foo(int a) \x7b return a + foo[0]; \x7d"

/-- The tree-sitter parse of `cexSource`. -/
def cexTree : TS :=
  TS.node "translation_unit" none cexSource 1
    (TS.node "function_definition" none cexSource 1
      (TS.node "primitive_type" (some "type") "int" 1 .leafEnd
        (TS.node "function_declarator" (some "declarator") "foo(int a)" 1
          (TS.node "identifier" (some "declarator") "foo" 1 .leafEnd
            (TS.node "parameter_list" (some "parameters") "(int a)" 1
              (TS.node "(" none "(" 1 .leafEnd
                (TS.node "parameter_declaration" none "int a" 1
                  (TS.node "primitive_type" (some "type") "int" 1 .leafEnd
                    (TS.node "identifier" (some "declarator") "a" 1 .leafEnd
                      .leafEnd))
                  (TS.node ")" none ")" 1 .leafEnd .leafEnd)))
              .leafEnd))
          (TS.node "compound_statement" (some "body")
            "\x7b return a + foo[0]; \x7d" 1 .leafEnd .leafEnd)))
      .leafEnd)
    .leafEnd

def cexEnv : ParseEnv :=
  ⟨fun l => if l = "c" then some 0 else none,
   fun _ src => if src = cexSource then some cexTree else none⟩

/-! ## Symbol-shape invariants of the extractors -/

/-- Shape of every Python-extracted Symbol: never an array, `params` only
on functions. -/
def pySymOk (s : Symbol) : Prop :=
  s.array_size = none ∧ s.kind ≠ "array" ∧ (s.kind ≠ "function" → s.params = [])

/-- Shape before the C post-pass. -/
def cPreOk (s : Symbol) : Prop :=
  ((s.kind = "array") ↔ s.array_size ≠ none) ∧
    (s.kind ≠ "function" → s.params = [])

/-- Shape after extraction (what C8's amended invariant asserts). -/
def symPostOk (s : Symbol) : Prop :=
  ((s.kind = "array") ↔ s.array_size ≠ none) ∧
    ((s.kind = "variable" ∨ s.kind = "class" ∨ s.kind = "struct") →
      s.params = [])

end Snipe

namespace Snipe

/-! ## Generic dict-fold characterizations -/

/-- A fold of plain dict assignments over an entry list looks up to the
last entry with the key. -/
theorem foldl_updF_lastWins {α : Type} (entries : List (String × α))
    (m0 : String → Option α) (k : String) :
    (entries.foldl (fun m e => updF m e.1 e.2) m0) k =
      (match entries.reverse.find? (fun e => e.1 == k) with
        | some e => some e.2
        | none => m0 k) := by
  induction entries generalizing m0 with
  | nil => rfl
  | cons e es ih =>
    simp only [List.foldl_cons, List.reverse_cons, List.find?_append]
    rw [ih]
    cases hfind : es.reverse.find? (fun e => e.1 == k) with
    | some e' => simp [hfind]
    | none =>
      simp only [hfind, Option.none_orElse]
      by_cases hk : e.1 = k
      · have hbk : (e.1 == k) = true := beq_iff_eq.mpr hk
        simp [List.find?, hbk, updF, hk]
      · have hbk : (e.1 == k) = false := beq_eq_false_iff_ne.mpr hk
        simp [List.find?, hbk, updF, Ne.symm hk]

/-- A fold of insert-if-absent dict assignments looks up to the base map
first, then the first entry with the key. -/
theorem foldl_updF_firstWins {α : Type} (entries : List (String × α))
    (m0 : String → Option α) (k : String) :
    (entries.foldl (fun m e => if (m e.1).isNone then updF m e.1 e.2 else m) m0) k =
      (match m0 k with
        | some v => some v
        | none => (entries.find? (fun e => e.1 == k)).map (fun e => e.2)) := by
  induction entries generalizing m0 with
  | nil =>
    simp only [List.foldl_nil]
    cases hm : m0 k <;> simp [hm]
  | cons e es ih =>
    simp only [List.foldl_cons]
    by_cases habs : (m0 e.1).isNone
    · rw [if_pos habs, ih]
      by_cases hk : e.1 = k
      · subst hk
        have h0 : m0 e.1 = none := Option.isNone_iff_eq_none.mp habs
        have hbk : (e.1 == e.1) = true := beq_iff_eq.mpr rfl
        simp [updF, List.find?, h0, hbk]
      · have hupd : updF m0 e.1 e.2 k = m0 k := by simp [updF, Ne.symm hk]
        have hbk : (e.1 == k) = false := beq_eq_false_iff_ne.mpr hk
        rw [hupd]
        cases hm : m0 k with
        | some v => simp
        | none => simp [List.find?, hbk]
    · rw [if_neg habs, ih]
      cases hm : m0 k with
      | some v => simp
      | none =>
        by_cases hk : e.1 = k
        · subst hk
          rw [hm] at habs
          simp at habs
        · have hbk : (e.1 == k) = false := beq_eq_false_iff_ne.mpr hk
          simp [List.find?, hbk]

theorem filter_not_mem_cons (k : String × Nat × String × String)
    (seen : List (String × Nat × String × String)) (ds : List Diagnostic) :
    ds.filter (fun e => decide (diagKey e ∉ k :: seen)) =
      (ds.filter (fun e => decide (diagKey e ∉ seen))).filter
        (fun e => decide (diagKey e ≠ k)) := by
  induction ds with
  | nil => rfl
  | cons d ds ih =>
    simp only [List.filter_cons]
    by_cases h1 : diagKey d = k
    · by_cases h2 : diagKey d ∈ seen
      · have hk : k ∈ seen := h1 ▸ h2
        simp [h1, h2, hk, ih]
      · have hk : k ∉ seen := h1 ▸ h2
        simp [h1, h2, hk, ih]
    · by_cases h2 : diagKey d ∈ seen
      · simp [h1, h2, ih]
      · simp [h1, h2, ih]

theorem dedupGo_eq_firstOccurrences (l : List Diagnostic) :
    ∀ seen, dedupGo seen l =
      firstOccurrences (l.filter (fun d => decide (diagKey d ∉ seen))) := by
  induction l with
  | nil => intro seen; simp [dedupGo, firstOccurrences]
  | cons d ds ih =>
    intro seen
    by_cases h : diagKey d ∈ seen
    · simp only [dedupGo, if_pos h, List.filter_cons]
      simp [h, ih seen]
    · have hf : (d :: ds).filter (fun e => decide (diagKey e ∉ seen)) =
        d :: ds.filter (fun e => decide (diagKey e ∉ seen)) := by
        simp [List.filter_cons, h]
      rw [dedupGo, if_neg h, ih (diagKey d :: seen), filter_not_mem_cons, hf,
        firstOccurrences]

theorem dedupGo_sublist (l : List Diagnostic) :
    ∀ seen, List.Sublist (dedupGo seen l) l := by
  induction l with
  | nil => intro seen; exact List.Sublist.refl _
  | cons d ds ih =>
    intro seen
    by_cases h : diagKey d ∈ seen
    · simp only [dedupGo, if_pos h]
      exact List.Sublist.cons d (ih seen)
    · simp only [dedupGo, if_neg h]
      exact List.Sublist.cons₂ d (ih _)

theorem dedupGo_keys_nodup (l : List Diagnostic) :
    ∀ seen, ((dedupGo seen l).map diagKey).Nodup ∧
      ∀ k ∈ (dedupGo seen l).map diagKey, k ∉ seen := by
  induction l with
  | nil => intro seen; exact ⟨List.nodup_nil, by simp [dedupGo]⟩
  | cons d ds ih =>
    intro seen
    by_cases h : diagKey d ∈ seen
    · simpa only [dedupGo, if_pos h] using ih seen
    · simp only [dedupGo, if_neg h, List.map_cons]
      obtain ⟨hnd, hout⟩ := ih (diagKey d :: seen)
      constructor
      · refine List.nodup_cons.mpr ⟨?_, hnd⟩
        intro hmem
        exact (hout _ hmem) (List.mem_cons_self _ _)
      · intro k hk
        rcases List.mem_cons.mp hk with hk | hk
        · exact hk ▸ h
        · intro hks
          exact (hout k hk) (List.mem_cons_of_mem _ hks)

theorem dedupGo_complete (l : List Diagnostic) :
    ∀ seen, ∀ d ∈ l, diagKey d ∈ seen ∨
      diagKey d ∈ (dedupGo seen l).map diagKey := by
  induction l with
  | nil => intro seen d hd; cases hd
  | cons a ds ih =>
    intro seen d hd
    rcases List.mem_cons.mp hd with hd | hd
    · subst hd
      by_cases h : diagKey d ∈ seen
      · exact Or.inl h
      · right
        simp only [dedupGo, if_neg h, List.map_cons]
        exact List.mem_cons_self _ _
    · by_cases h : diagKey a ∈ seen
      · simpa only [dedupGo, if_pos h] using ih seen d hd
      · simp only [dedupGo, if_neg h, List.map_cons]
        rcases ih (diagKey a :: seen) d hd with hmem | hmem
        · rcases List.mem_cons.mp hmem with he | he
          · exact Or.inr (he ▸ List.mem_cons_self _ _)
          · exact Or.inl he
        · exact Or.inr (List.mem_cons_of_mem _ hmem)

theorem le_mtStep (acc : Int) (fe : FileEntry) : acc ≤ mtStep acc fe := by
  unfold mtStep
  by_cases h : walkIncluded fe
  · simp only [h, if_true]
    cases fe.mtime with
    | some mt =>
      by_cases hlt : acc < mt
      · simp [hlt]; omega
      · simp [hlt]
    | none => simp
  · simp [h]

theorem mtStep_ub (acc : Int) (fe : FileEntry) (mt : Int)
    (hi : walkIncluded fe = true) (hm : fe.mtime = some mt) :
    mt ≤ mtStep acc fe := by
  unfold mtStep
  simp only [hi, if_true, hm]
  by_cases hlt : acc < mt
  · simp [hlt]
  · simp [hlt]; omega

theorem maxMtGo_mono (fs : List FileEntry) :
    ∀ acc, acc ≤ maxMtGo acc fs := by
  induction fs with
  | nil => intro acc; exact le_refl _
  | cons fe rest ih =>
    intro acc
    exact le_trans (le_mtStep acc fe) (ih (mtStep acc fe))

theorem maxMtGo_ub (fs : List FileEntry) :
    ∀ acc, ∀ fe ∈ fs, walkIncluded fe = true →
      ∀ mt, fe.mtime = some mt → mt ≤ maxMtGo acc fs := by
  induction fs with
  | nil => intro acc fe hfe; cases hfe
  | cons f rest ih =>
    intro acc fe hfe hin mt hmt
    rcases List.mem_cons.mp hfe with h | h
    · subst h
      exact le_trans (mtStep_ub acc fe mt hin hmt) (maxMtGo_mono rest _)
    · exact ih (mtStep acc f) fe h hin mt hmt

theorem maxMtGo_attained (fs : List FileEntry) :
    ∀ acc, maxMtGo acc fs = acc ∨
      ∃ fe ∈ fs, walkIncluded fe = true ∧ fe.mtime = some (maxMtGo acc fs) := by
  induction fs with
  | nil => intro acc; exact Or.inl rfl
  | cons f rest ih =>
    intro acc
    rcases ih (mtStep acc f) with h | h
    · rw [maxMtGo, h]
      unfold mtStep
      by_cases hin : walkIncluded f
      · simp only [hin, if_true]
        cases hm : f.mtime with
        | some mt =>
          by_cases hlt : acc < mt
          · simp only [hlt, if_true]
            exact Or.inr ⟨f, List.mem_cons_self _ _, hin, hm⟩
          · simp [hlt]
        | none => simp
      · simp [hin]
    · obtain ⟨fe, hfe, hi, hm⟩ := h
      exact Or.inr ⟨fe, List.mem_cons_of_mem _ hfe, hi, hm⟩

theorem assocFind_insertAppend (acc : List (String × List String))
    (k0 : String) (v0 : String) (k : String) :
    assocFind (insertAppend acc k0 v0) k =
      if k = k0 then some ((assocFind acc k0).getD [] ++ [v0])
      else assocFind acc k := by
  induction acc with
  | nil =>
    by_cases hk : k = k0
    · subst hk
      simp [insertAppend, assocFind, List.find?]
    · have hbk : (k0 == k) = false := beq_eq_false_iff_ne.mpr (Ne.symm hk)
      simp [insertAppend, assocFind, List.find?, hbk, hk]
  | cons g rest ih =>
    obtain ⟨k', vs'⟩ := g
    by_cases hk' : k' = k0
    · subst hk'
      simp only [insertAppend, if_pos rfl]
      by_cases hk : k = k'
      · subst hk
        simp [assocFind, List.find?]
      · have hbk : (k' == k) = false := beq_eq_false_iff_ne.mpr (Ne.symm hk)
        simp [assocFind, List.find?, hbk, hk]
    · simp only [insertAppend, if_neg hk']
      by_cases hk : k = k'
      · have hbk : (k' == k) = true := beq_iff_eq.mpr hk.symm
        have hkk0 : ¬ k = k0 := fun h => hk' (hk.symm.trans h)
        simp [assocFind, List.find?, hbk, hkk0]
      · have hbk : (k' == k) = false := beq_eq_false_iff_ne.mpr (fun h => hk h.symm)
        have hbk0 : (k' == k0) = false := beq_eq_false_iff_ne.mpr hk'
        by_cases hk0 : k = k0
        · rw [if_pos hk0] at ih ⊢
          subst hk0
          simp only [assocFind, List.find?, hbk, hbk0] at ih ⊢
          exact ih
        · rw [if_neg hk0] at ih ⊢
          simp only [assocFind, List.find?, hbk] at ih ⊢
          exact ih

theorem nameToIds_snoc (ns : List GNode) (nd : GNode) :
    nameToIds (ns ++ [nd]) = insertAppend (nameToIds ns) nd.label nd.id := by
  simp [nameToIds, List.foldl_append]

/-- Full characterization of a `name_to_ids` lookup: the ids of the nodes
bearing the label, in node order (absent when no node bears it). -/
theorem nameToIds_lookup (ns : List GNode) (k : String) :
    assocFind (nameToIds ns) k =
      (if ((ns.filter (fun nd => nd.label == k)).map GNode.id) = []
        then none
        else some ((ns.filter (fun nd => nd.label == k)).map GNode.id)) := by
  induction ns using List.reverseRecOn with
  | nil => simp [nameToIds, assocFind]
  | append_singleton ns nd ih =>
    rw [nameToIds_snoc, assocFind_insertAppend]
    by_cases hk : k = nd.label
    · subst hk
      rw [if_pos rfl, ih]
      have hb : (nd.label == nd.label) = true := beq_iff_eq.mpr rfl
      by_cases hempty :
          ((ns.filter (fun n => n.label == nd.label)).map GNode.id) = []
      · simp [List.filter_append, hempty, List.filter_cons, hb]
      · simp [List.filter_append, hempty, List.filter_cons, hb]
    · have hb : (nd.label == k) = false := beq_eq_false_iff_ne.mpr
        (fun h => hk h.symm)
      rw [if_neg hk, ih]
      simp [List.filter_append, List.filter_cons, hb]

theorem nameToIds_keys (acc : List (String × List String)) (k0 v0 : String) :
    (insertAppend acc k0 v0).map Prod.fst =
      if k0 ∈ acc.map Prod.fst then acc.map Prod.fst
      else acc.map Prod.fst ++ [k0] := by
  induction acc with
  | nil => simp [insertAppend]
  | cons g rest ih =>
    obtain ⟨k', vs'⟩ := g
    by_cases hk' : k' = k0
    · subst hk'
      simp [insertAppend]
    · simp only [insertAppend, if_neg hk', List.map_cons, ih]
      by_cases hmem : k0 ∈ rest.map Prod.fst
      · simp [hmem, hk', Ne.symm hk']
      · simp [hmem, hk', Ne.symm hk']

theorem nameToIds_keys_nodup (ns : List GNode) :
    ((nameToIds ns).map Prod.fst).Nodup := by
  induction ns using List.reverseRecOn with
  | nil => simp [nameToIds]
  | append_singleton ns nd ih =>
    rw [nameToIds_snoc, nameToIds_keys]
    by_cases hmem : nd.label ∈ (nameToIds ns).map Prod.fst
    · simpa [hmem] using ih
    · rw [if_neg hmem]
      refine List.Nodup.append ih (List.nodup_singleton _) ?_
      intro x hx hy
      rcases List.mem_singleton.mp hy with rfl
      exact hmem hx

theorem assocFind_of_mem (acc : List (String × List String)) (k : String)
    (vs : List String) :
    (acc.map Prod.fst).Nodup → (k, vs) ∈ acc → assocFind acc k = some vs := by
  induction acc with
  | nil => intro _ h; cases h
  | cons g rest ih =>
    intro hnd hmem
    obtain ⟨k', vs'⟩ := g
    simp only [List.map_cons, List.nodup_cons] at hnd
    obtain ⟨hk'nin, hndrest⟩ := hnd
    rcases List.mem_cons.mp hmem with h | h
    · rw [Prod.mk.injEq] at h
      obtain ⟨h1, h2⟩ := h
      subst h1
      subst h2
      simp [assocFind, List.find?]
    · have hk : ¬ k' = k := by
        intro hkk
        subst hkk
        exact hk'nin (List.mem_map.mpr ⟨(k', vs), h, rfl⟩)
      have hbk : (k' == k) = false := beq_eq_false_iff_ne.mpr hk
      have hres := ih hndrest h
      simpa [assocFind, List.find?, hbk] using hres

theorem nodesGo_ids_nodup (l : List RepoSym) :
    ∀ seen, ((nodesGo seen l).map GNode.id).Nodup ∧
      ∀ i ∈ (nodesGo seen l).map GNode.id, i ∉ seen := by
  induction l with
  | nil => intro seen; exact ⟨List.nodup_nil, by simp [nodesGo]⟩
  | cons s rest ih =>
    intro seen
    by_cases h : nodeId s ∈ seen
    · simpa only [nodesGo, if_pos h] using ih seen
    · simp only [nodesGo, if_neg h, List.map_cons]
      obtain ⟨hnd, hout⟩ := ih (nodeId s :: seen)
      constructor
      · refine List.nodup_cons.mpr ⟨?_, hnd⟩
        intro hmem
        exact (hout _ hmem) (by simp [toNode])
      · intro i hi
        rcases List.mem_cons.mp hi with hi | hi
        · subst hi; simpa [toNode] using h
        · intro his
          exact (hout i hi) (List.mem_cons_of_mem _ his)

theorem pairEdges_sound (vs : List String) (hnd : vs.Nodup) :
    ∀ e ∈ pairEdges vs, e.type = "REFERENCES" ∧ e.source ∈ vs ∧
      e.target ∈ vs ∧ e.source ≠ e.target := by
  induction vs with
  | nil => intro e he; cases he
  | cons a rest ih =>
    intro e he
    obtain ⟨hnotin, hrest⟩ := List.nodup_cons.mp hnd
    rcases List.mem_append.mp he with h | h
    · obtain ⟨b, hb, rfl⟩ := List.mem_map.mp h
      refine ⟨rfl, List.mem_cons_self _ _, List.mem_cons_of_mem _ hb, ?_⟩
      intro hab
      have hab' : a = b := hab
      exact hnotin (hab' ▸ hb)
    · obtain ⟨ht, hs, htg, hne⟩ := ih hrest e h
      exact ⟨ht, List.mem_cons_of_mem _ hs, List.mem_cons_of_mem _ htg, hne⟩

theorem pairEdges_complete (vs : List String) (a b : String)
    (ha : a ∈ vs) (hb : b ∈ vs) (hab : a ≠ b) :
    (⟨a, b, "REFERENCES"⟩ : GEdge) ∈ pairEdges vs ∨
      (⟨b, a, "REFERENCES"⟩ : GEdge) ∈ pairEdges vs := by
  induction vs with
  | nil => cases ha
  | cons c rest ih =>
    rcases List.mem_cons.mp ha with rfl | ha'
    · have hb' : b ∈ rest := by
        rcases List.mem_cons.mp hb with h | h
        · exact absurd h.symm hab
        · exact h
      left
      exact List.mem_append.mpr (Or.inl (List.mem_map.mpr ⟨b, hb', rfl⟩))
    · rcases List.mem_cons.mp hb with rfl | hb'
      · right
        exact List.mem_append.mpr (Or.inl (List.mem_map.mpr ⟨a, ha', rfl⟩))
      · rcases ih ha' hb' with h | h
        · exact Or.inl (List.mem_append.mpr (Or.inr h))
        · exact Or.inr (List.mem_append.mpr (Or.inr h))

theorem two_le_length {α : Type} (l : List α) (a b : α)
    (ha : a ∈ l) (hb : b ∈ l) (hab : a ≠ b) : 2 ≤ l.length := by
  match l with
  | [] => cases ha
  | [x] =>
    rcases List.mem_singleton.mp ha with rfl
    rcases List.mem_singleton.mp hb with rfl
    exact absurd rfl hab
  | x :: y :: t => simp only [List.length_cons]; omega

/-- Every edge the graph builder emits is a `REFERENCES` edge between two
distinct known nodes bearing the same label. -/
theorem graph_edges_sound (ns : List GNode)
    (hnd : (ns.map GNode.id).Nodup) (e : GEdge)
    (he : e ∈ (nameToIds ns).flatMap
      (fun g => if g.2.length < 2 then [] else pairEdges g.2)) :
    e.type = "REFERENCES" ∧ ∃ n1 ∈ ns, ∃ n2 ∈ ns,
      n1.id = e.source ∧ n2.id = e.target ∧ n1.label = n2.label ∧
      n1.id ≠ n2.id := by
  obtain ⟨g, hg, hel⟩ := List.mem_flatMap.mp he
  by_cases hlen : g.2.length < 2
  · rw [if_pos hlen] at hel; cases hel
  · rw [if_neg hlen] at hel
    have hfind : assocFind (nameToIds ns) g.1 = some g.2 :=
      assocFind_of_mem _ _ _ (nameToIds_keys_nodup ns) (by
        obtain ⟨k, vs⟩ := g
        exact hg)
    rw [nameToIds_lookup] at hfind
    by_cases hempty : ((ns.filter (fun nd => nd.label == g.1)).map GNode.id) = []
    · rw [if_pos hempty] at hfind; cases hfind
    · rw [if_neg hempty] at hfind
      have hvs : g.2 = (ns.filter (fun nd => nd.label == g.1)).map GNode.id :=
        (Option.some.injEq _ _ ▸ hfind).symm
      have hsub : List.Sublist ((ns.filter (fun nd => nd.label == g.1)).map GNode.id)
          (ns.map GNode.id) :=
        List.Sublist.map _ (List.filter_sublist _)
      have hvnd : g.2.Nodup := hvs ▸ (hnd.sublist hsub)
      obtain ⟨hty, hsrc, htgt, hne⟩ := pairEdges_sound g.2 hvnd e hel
      rw [hvs] at hsrc htgt
      obtain ⟨n1, hn1f, hn1⟩ := List.mem_map.mp hsrc
      obtain ⟨n2, hn2f, hn2⟩ := List.mem_map.mp htgt
      obtain ⟨hn1m, hn1l⟩ := List.mem_filter.mp hn1f
      obtain ⟨hn2m, hn2l⟩ := List.mem_filter.mp hn2f
      refine ⟨hty, n1, hn1m, n2, hn2m, hn1, hn2, ?_, ?_⟩
      · exact (beq_iff_eq.mp hn1l).trans (beq_iff_eq.mp hn2l).symm
      · rw [hn1, hn2]; exact hne

/-- A fold whose step is "assign when the element yields an entry" equals
the plain assignment fold over the extracted entries. -/
theorem foldl_step_filterMap {α β : Type} (f : α → Option (String × β))
    (step : (String → Option β) → α → (String → Option β))
    (hstep : ∀ m s, step m s =
      (match f s with
        | some e => updF m e.1 e.2
        | none => m))
    (l : List α) (m0 : String → Option β) :
    l.foldl step m0 = (l.filterMap f).foldl (fun m e => updF m e.1 e.2) m0 := by
  induction l generalizing m0 with
  | nil => rfl
  | cons s rest ih =>
    rw [List.foldl_cons, hstep, List.filterMap_cons]
    cases hf : f s with
    | none => simp only [ih]
    | some e => simp only [List.foldl_cons, ih]

/-- Same bridge for insert-if-absent steps. -/
theorem foldl_condStep_filterMap {α β : Type} (f : α → Option (String × β))
    (step : (String → Option β) → α → (String → Option β))
    (hstep : ∀ m s, step m s =
      (match f s with
        | some e => if (m e.1).isNone then updF m e.1 e.2 else m
        | none => m))
    (l : List α) (m0 : String → Option β) :
    l.foldl step m0 =
      (l.filterMap f).foldl
        (fun m e => if (m e.1).isNone then updF m e.1 e.2 else m) m0 := by
  induction l generalizing m0 with
  | nil => rfl
  | cons s rest ih =>
    rw [List.foldl_cons, hstep, List.filterMap_cons]
    cases hf : f s with
    | none => simp only [ih]
    | some e => simp only [List.foldl_cons, ih]

/-- The size map looks up to the LAST matching declaration among repo
entries followed by buffer entries: buffer declarations are consulted in
addition to repo ones and the last write wins. -/
theorem sizesMap_lastWins (repo : List RepoSym) (buf : List Symbol)
    (cf : String) (k : String) :
    sizesMap repo buf cf k =
      (((repo.filterMap sizeEntryR) ++ (buf.filterMap (sizeEntryB cf))).reverse.find?
          (fun e => e.1 == k)).map (fun e => e.2) := by
  have h1 : ∀ m0, repo.foldl
      (fun m s => match s.array_size with
        | some z => updF m s.name (z, s.file_path, s.line)
        | none => m) m0 =
      (repo.filterMap sizeEntryR).foldl (fun m e => updF m e.1 e.2) m0 := by
    intro m0
    refine foldl_step_filterMap sizeEntryR _ ?_ repo m0
    intro m s
    cases hz : s.array_size <;> simp [sizeEntryR, hz]
  have h2 : ∀ m0, buf.foldl
      (fun m s => match s.array_size with
        | some z =>
          updF m s.name (z, (if s.file_path = "" then cf else s.file_path), s.line)
        | none => m) m0 =
      (buf.filterMap (sizeEntryB cf)).foldl (fun m e => updF m e.1 e.2) m0 := by
    intro m0
    refine foldl_step_filterMap (sizeEntryB cf) _ ?_ buf m0
    intro m s
    cases hz : s.array_size <;> simp [sizeEntryB, hz]
  rw [sizesMap, h2, h1, ← List.foldl_append, foldl_updF_lastWins]
  cases hfind : (((repo.filterMap sizeEntryR) ++
      (buf.filterMap (sizeEntryB cf))).reverse.find? (fun e => e.1 == k)) <;>
    simp [hfind]

theorem repoNameEntry_find (repo : List RepoSym) (cf : String) (k : String)
    (hk : k ≠ "") :
    ((repo.filterMap (repoNameEntry cf)).find? (fun e => e.1 == k)).map
        (fun e => e.2) =
      (repo.filter (fun s => s.file_path != cf)).find? (fun s => s.name == k) := by
  induction repo with
  | nil => rfl
  | cons s rest ih =>
    rw [List.filterMap_cons, List.filter_cons]
    by_cases hf : s.file_path = cf
    · have h1 : repoNameEntry cf s = none := by simp [repoNameEntry, hf]
      have h2 : (s.file_path != cf) = false := by simp [bne, hf]
      rw [h1, h2]
      simpa using ih
    · have h2 : (s.file_path != cf) = true := by simp [bne, hf]
      rw [h2]
      by_cases hn : s.name = ""
      · have h1 : repoNameEntry cf s = none := by simp [repoNameEntry, hf, hn]
        have hsk : (s.name == k) = false := by
          refine beq_eq_false_iff_ne.mpr ?_
          intro h
          exact hk (h ▸ hn)
        rw [h1]
        simpa [List.find?, hsk] using ih
      · have h1 : repoNameEntry cf s = some (s.name, s) := by
          simp [repoNameEntry, hf, hn]
        rw [h1]
        by_cases hks : s.name = k
        · have hsk : (s.name == k) = true := beq_iff_eq.mpr hks
          simp [List.find?, hsk]
        · have hsk : (s.name == k) = false := beq_eq_false_iff_ne.mpr hks
          simpa [List.find?, hsk] using ih

/-- `repo_by_name` looks up to the FIRST symbol with the name declared in
a different file than `current_file` (first match wins, same-file entries
skipped). -/
theorem repoByName_firstWins (repo : List RepoSym) (cf : String) (k : String)
    (hk : k ≠ "") :
    repoByName repo cf k =
      (repo.filter (fun s => s.file_path != cf)).find? (fun s => s.name == k) := by
  have hb : ∀ m0, repo.foldl
      (fun m s =>
        if s.file_path = cf then m
        else if s.name ≠ "" ∧ (m s.name).isNone then updF m s.name s
        else m) m0 =
      (repo.filterMap (repoNameEntry cf)).foldl
        (fun m e => if (m e.1).isNone then updF m e.1 e.2 else m) m0 := by
    intro m0
    refine foldl_condStep_filterMap (repoNameEntry cf) _ ?_ repo m0
    intro m s
    by_cases hf : s.file_path = cf
    · simp [repoNameEntry, hf]
    · by_cases hn : s.name = ""
      · simp [repoNameEntry, hf, hn]
      · simp [repoNameEntry, hf, hn]
  rw [repoByName, hb, foldl_updF_firstWins]
  exact repoNameEntry_find repo cf k hk

theorem nameKindEntry_find (buf : List Symbol) (k : String) :
    ((buf.filterMap (fun s => some (s.name, s.kind))).find? (fun e => e.1 == k)).map
        (fun e => e.2) =
      (buf.find? (fun s => s.name == k)).map (fun s => s.kind) := by
  induction buf with
  | nil => rfl
  | cons s rest ih =>
    rw [List.filterMap_cons]
    by_cases hks : s.name = k
    · have hsk : (s.name == k) = true := beq_iff_eq.mpr hks
      simp [List.find?, hsk]
    · have hsk : (s.name == k) = false := beq_eq_false_iff_ne.mpr hks
      simpa [List.find?, hsk] using ih

/-- A name with no typed buffer declaration falls back to the kind of the
first buffer symbol carrying the name; a typed declaration wins. -/
theorem localTypes_lookup (buf : List Symbol) (k : String) :
    localTypes buf k =
      (match localTypesPass1 buf k with
        | some t => some t
        | none => (buf.find? (fun s => s.name == k)).map (fun s => s.kind)) := by
  have hb : ∀ m0, buf.foldl
      (fun m s => if (m s.name).isNone then updF m s.name s.kind else m) m0 =
      (buf.filterMap (fun s => some (s.name, s.kind))).foldl
        (fun m e => if (m e.1).isNone then updF m e.1 e.2 else m) m0 := by
    intro m0
    exact foldl_condStep_filterMap (fun s => some (s.name, s.kind)) _
      (fun m s => rfl) buf m0
  rw [localTypes, hb, foldl_updF_firstWins]
  cases hp : localTypesPass1 buf k with
  | some t => rfl
  | none => exact nameKindEntry_find buf k

/-- The last typed buffer declaration of a name provides its local type. -/
theorem localTypesPass1_lastWins (buf : List Symbol) (k : String) :
    localTypesPass1 buf k =
      ((buf.filterMap (fun s => s.type.map (fun t => (s.name, t)))).reverse.find?
          (fun e => e.1 == k)).map (fun e => e.2) := by
  have hb : ∀ m0, buf.foldl
      (fun m s => match s.type with
        | some t => updF m s.name t
        | none => m) m0 =
      (buf.filterMap (fun s => s.type.map (fun t => (s.name, t)))).foldl
        (fun m e => updF m e.1 e.2) m0 := by
    intro m0
    refine foldl_step_filterMap _ _ ?_ buf m0
    intro m s
    cases s.type <;> rfl
  rw [localTypesPass1, hb, foldl_updF_lastWins]
  cases hfind : ((buf.filterMap (fun s => s.type.map (fun t => (s.name, t)))).reverse.find?
      (fun e => e.1 == k)) <;> simp [hfind]

/-- Every pair of distinct same-label nodes is connected by an emitted
edge (in one direction). -/
theorem graph_edges_complete (ns : List GNode) (n1 n2 : GNode)
    (h1 : n1 ∈ ns) (h2 : n2 ∈ ns) (hlab : n1.label = n2.label)
    (hne : n1.id ≠ n2.id) :
    ∃ e ∈ (nameToIds ns).flatMap
      (fun g => if g.2.length < 2 then [] else pairEdges g.2),
      (e.source = n1.id ∧ e.target = n2.id) ∨
      (e.source = n2.id ∧ e.target = n1.id) := by
  have hb1 : (n1.label == n1.label) = true := beq_iff_eq.mpr rfl
  have hb2 : (n2.label == n1.label) = true := beq_iff_eq.mpr hlab.symm
  have hm1 : n1.id ∈ (ns.filter (fun nd => nd.label == n1.label)).map GNode.id :=
    List.mem_map.mpr ⟨n1, List.mem_filter.mpr ⟨h1, hb1⟩, rfl⟩
  have hm2 : n2.id ∈ (ns.filter (fun nd => nd.label == n1.label)).map GNode.id :=
    List.mem_map.mpr ⟨n2, List.mem_filter.mpr ⟨h2, hb2⟩, rfl⟩
  have hempty : ¬ ((ns.filter (fun nd => nd.label == n1.label)).map GNode.id) = [] := by
    intro h
    rw [h] at hm1
    cases hm1
  have hfind : assocFind (nameToIds ns) n1.label =
      some ((ns.filter (fun nd => nd.label == n1.label)).map GNode.id) := by
    rw [nameToIds_lookup, if_neg hempty]
  obtain ⟨g, hgf, hgv⟩ := Option.map_eq_some'.mp hfind
  have hgmem : g ∈ nameToIds ns := List.mem_of_find?_eq_some hgf
  have hlen : ¬ g.2.length < 2 := by
    rw [hgv]
    have := two_le_length _ n1.id n2.id hm1 hm2 hne
    omega
  have hvs : g.2 = (ns.filter (fun nd => nd.label == n1.label)).map GNode.id := hgv
  rcases pairEdges_complete g.2 n1.id n2.id (hvs ▸ hm1) (hvs ▸ hm2) hne with h | h
  · refine ⟨⟨n1.id, n2.id, "REFERENCES"⟩, ?_, Or.inl ⟨rfl, rfl⟩⟩
    exact List.mem_flatMap.mpr ⟨g, hgmem, by rw [if_neg hlen]; exact h⟩
  · refine ⟨⟨n2.id, n1.id, "REFERENCES"⟩, ?_, Or.inr ⟨rfl, rfl⟩⟩
    exact List.mem_flatMap.mpr ⟨g, hgmem, by rw [if_neg hlen]; exact h⟩

theorem subPatternTargets_ok (t : TS) :
    ∀ fp scope ln, ∀ s ∈ subPatternTargets fp scope ln t, pySymOk s := by
  induction t with
  | leafEnd => intro fp scope ln s hs; simp [subPatternTargets] at hs
  | node ty fd tx lnn ch next ihch ihnext =>
    intro fp scope ln s hs
    simp only [subPatternTargets] at hs
    rcases List.mem_append.mp hs with h | h
    · by_cases hty : ty = "identifier"
      · rw [if_pos hty] at h
        by_cases hname : pyStrip tx ≠ "" ∧ ¬ startsWithUnderscore (pyStrip tx)
        · rw [if_pos hname] at h
          rcases List.mem_singleton.mp h with rfl
          exact ⟨rfl, (by show ("variable" : String) ≠ "array"; decide),
            fun _ => rfl⟩
        · rw [if_neg hname] at h
          cases h
      · rw [if_neg hty] at h
        cases h
    · exact ihnext fp scope ln s h

theorem assignTargets_ok (t : TS) :
    ∀ fp scope ln, ∀ s ∈ assignTargets fp scope ln t, pySymOk s := by
  induction t with
  | leafEnd => intro fp scope ln s hs; simp [assignTargets] at hs
  | node ty fd tx lnn ch next ihch ihnext =>
    intro fp scope ln s hs
    simp only [assignTargets] at hs
    by_cases hty : ty = "identifier"
    · rw [if_pos hty] at hs
      by_cases hname : pyStrip tx ≠ "" ∧ ¬ startsWithUnderscore (pyStrip tx)
      · rw [if_pos hname] at hs
        rcases List.mem_singleton.mp hs with rfl
        exact ⟨rfl, (by show ("variable" : String) ≠ "array"; decide),
          fun _ => rfl⟩
      · rw [if_neg hname] at hs
        cases hs
    · rw [if_neg hty] at hs
      by_cases htp : ty = "tuple_pattern" ∨ ty = "list_pattern"
      · rw [if_pos htp] at hs
        rcases List.mem_append.mp hs with h | h
        · exact subPatternTargets_ok ch fp scope ln s h
        · exact ihnext fp scope ln s h
      · rw [if_neg htp] at hs
        exact ihnext fp scope ln s hs

theorem pySymsChain_ok (t : TS) :
    ∀ fp scope, ∀ s ∈ pySymsChain fp scope t, pySymOk s := by
  induction t with
  | leafEnd => intro fp scope s hs; simp [pySymsChain] at hs
  | node ty fd tx ln ch next ihch ihnext =>
    intro fp scope s hs
    simp only [pySymsChain] at hs
    rcases List.mem_append.mp hs with h | h
    · by_cases hfn : ty = "function_definition"
      · rw [if_pos hfn] at h
        cases hname : childF "name" ch with
        | none => rw [hname] at h; cases h
        | some nm =>
          rw [hname] at h
          rcases List.mem_cons.mp h with rfl | h
          · exact ⟨rfl, (by show ("function" : String) ≠ "array"; decide),
              fun hk => absurd rfl hk⟩
          · exact ihch fp _ s h
      · rw [if_neg hfn] at h
        by_cases hcl : ty = "class_definition"
        · rw [if_pos hcl] at h
          cases hname : childF "name" ch with
          | none => rw [hname] at h; cases h
          | some nm =>
            rw [hname] at h
            rcases List.mem_cons.mp h with rfl | h
            · exact ⟨rfl, (by show ("class" : String) ≠ "array"; decide),
                fun _ => rfl⟩
            · exact ihch fp _ s h
        · rw [if_neg hcl] at h
          by_cases has : ty = "assignment"
          · rw [if_pos has] at h
            rcases List.mem_append.mp h with h | h
            · exact assignTargets_ok ch fp scope ln s h
            · exact ihch fp scope s h
          · rw [if_neg has] at h
            exact ihch fp scope s h
    · exact ihnext fp scope s h

theorem declComponents_ok (t : TS) :
    ∀ fp ln ts, ∀ s ∈ declComponents fp ln ts t,
      ((s.kind = "array") ↔ s.array_size ≠ none) ∧ s.params = [] ∧
        s.kind ≠ "function" := by
  induction t with
  | leafEnd => intro fp ln ts s hs; simp [declComponents] at hs
  | node ty fd tx lnn ch next ihch ihnext =>
    intro fp ln ts s hs
    simp only [declComponents] at hs
    rcases List.mem_append.mp hs with h | h
    · by_cases hini : ty = "init_declarator"
      · rw [if_pos hini] at h
        split at h
        · split at h
          · rcases List.mem_singleton.mp h with rfl
            refine ⟨?_, rfl, ?_⟩
            · cases hsz : getArraySizeFromDeclarator
                  ((childF "declarator" ch).getD
                    (severNext (TS.node ty fd tx lnn ch next))) with
              | none =>
                show (("variable" : String) = "array") ↔
                  ((none : Option Int) ≠ none)
                decide
              | some v =>
                show (("array" : String) = "array") ↔
                  ((some v : Option Int) ≠ none)
                simp
            · cases hsz : getArraySizeFromDeclarator
                  ((childF "declarator" ch).getD
                    (severNext (TS.node ty fd tx lnn ch next))) with
              | none =>
                show ("variable" : String) ≠ "function"
                decide
              | some v =>
                show ("array" : String) ≠ "function"
                decide
          · cases h
        · cases h
      · rw [if_neg hini] at h
        by_cases hidl : ty = "identifier"
        · rw [if_pos hidl] at h
          rcases List.mem_singleton.mp h with rfl
          refine ⟨?_, rfl, ?_⟩
          · show (("variable" : String) = "array") ↔ ((none : Option Int) ≠ none)
            decide
          · show ("variable" : String) ≠ "function"
            decide
        · rw [if_neg hidl] at h
          cases h
    · exact ihnext fp ln ts s h

theorem cFuncSym_ok (fp : String) (ln : Nat) (tnode : TS) :
    ∀ s ∈ cFuncSym fp ln tnode, s.kind = "function" ∧ s.array_size = none := by
  intro s hs
  unfold cFuncSym at hs
  split at hs
  · split at hs
    · split at hs
      · split at hs
        · rcases List.mem_singleton.mp hs with rfl
          exact ⟨rfl, rfl⟩
        · cases hs
      · cases hs
    · cases hs
  · cases hs

theorem cSymsChain_ok (t : TS) :
    ∀ fp, ∀ s ∈ cSymsChain fp t, cPreOk s := by
  induction t with
  | leafEnd => intro fp s hs; simp [cSymsChain] at hs
  | node ty fd tx ln ch next ihch ihnext =>
    intro fp s hs
    simp only [cSymsChain] at hs
    rcases List.mem_append.mp hs with hs | h4
    · rcases List.mem_append.mp hs with hs | h3
      · rcases List.mem_append.mp hs with hs | h2
        · rcases List.mem_append.mp hs with h1 | h2'
          · by_cases hfn : ty = "function_definition"
            · rw [if_pos hfn] at h1
              obtain ⟨hk, hz⟩ := cFuncSym_ok fp ln _ s h1
              refine ⟨?_, fun hkk => absurd hk hkk⟩
              rw [hk, hz]
              decide
            · rw [if_neg hfn] at h1
              cases h1
          · by_cases hdc : ty = "declaration"
            · rw [if_pos hdc] at h2'
              cases hdl : (childF "declarator" ch).orElse
                  (fun _ => childF "init_declarator_list" ch) with
              | none => rw [hdl] at h2'; cases h2'
              | some dl =>
                rw [hdl] at h2'
                obtain ⟨hiff, hpar, hnf⟩ := declComponents_ok dl.children fp ln _ s h2'
                exact ⟨hiff, fun _ => hpar⟩
            · rw [if_neg hdc] at h2'
              cases h2'
        · by_cases hst : ty = "struct_specifier"
          · rw [if_pos hst] at h2
            cases hnm : childF "name" ch with
            | none => rw [hnm] at h2; cases h2
            | some nm =>
              rw [hnm] at h2
              rcases List.mem_singleton.mp h2 with rfl
              refine ⟨?_, fun _ => rfl⟩
              show (("struct" : String) = "array") ↔ ((none : Option Int) ≠ none)
              decide
          · rw [if_neg hst] at h2
            cases h2
      · exact ihch fp s h3
    · exact ihnext fp s h4

theorem cPostPass_ok (lines : List String) (syms : List Symbol)
    (hpre : ∀ s ∈ syms, cPreOk s) :
    ∀ s ∈ cPostPass lines syms, symPostOk s := by
  intro s hs
  obtain ⟨s0, hs0, heq⟩ := List.mem_map.mp hs
  obtain ⟨hiff, hpar⟩ := hpre s0 hs0
  have hs0post : symPostOk s0 := by
    refine ⟨hiff, ?_⟩
    intro hk
    apply hpar
    rcases hk with hk | hk | hk <;> rw [hk] <;> decide
  subst heq
  by_cases hz : s0.array_size.isNone
  · rw [if_pos hz]
    by_cases hln : 1 ≤ s0.line ∧ s0.line - 1 < lines.length
    · rw [if_pos hln]
      split
      · split
        · refine ⟨?_, ?_⟩
          · show (("array" : String) = "array") ↔
              ((some (Int.ofNat _) : Option Int) ≠ none)
            simp
          · intro hk
            rcases hk with hk | hk | hk <;>
              exact absurd hk (by
                show ¬ (("array" : String) = _)
                decide)
        · exact hs0post
      · exact hs0post
    · rw [if_neg hln]
      exact hs0post
  · rw [if_neg hz]
    exact hs0post

theorem pySymOk_post (s : Symbol) (h : pySymOk s) : symPostOk s := by
  obtain ⟨hz, hk, hp⟩ := h
  constructor
  · constructor
    · intro ha
      exact absurd ha hk
    · intro hzz
      rw [hz] at hzz
      exact absurd rfl hzz
  · intro hkk
    apply hp
    rcases hkk with hkk | hkk | hkk <;> rw [hkk] <;> decide

theorem extractPythonSymbols_ok (env : ParseEnv) (source fp : String) :
    ∀ s ∈ extractPythonSymbols env source fp, symPostOk s := by
  intro s hs
  unfold extractPythonSymbols at hs
  split at hs
  · cases hs
  · split at hs
    · cases hs
    · exact pySymOk_post s (pySymsChain_ok _ fp "" s hs)

theorem extractCSymbols_ok (env : ParseEnv) (source fp : String) :
    ∀ s ∈ extractCSymbols env source fp, symPostOk s := by
  intro s hs
  unfold extractCSymbols at hs
  split at hs
  · cases hs
  · split at hs
    · cases hs
    · exact cPostPass_ok _ _ (fun s' hs' => cSymsChain_ok _ fp s' hs') s hs

theorem extract_symbols_ok (env : ParseEnv) (source fp : String)
    (language : Option String) :
    ∀ s ∈ extract_symbols_from_source env source fp language, symPostOk s := by
  intro s hs
  unfold extract_symbols_from_source at hs
  split at hs
  · simp only [] at hs
    split at hs
    · exact extractPythonSymbols_ok env source fp s hs
    · split at hs
      · exact extractCSymbols_ok env source fp s hs
      · cases hs
  · split at hs
    · exact extractPythonSymbols_ok env source fp s hs
    · split at hs
      · exact extractCSymbols_ok env source fp s hs
      · cases hs

theorem contains_eq_mem_str (l : List String) (a : String) :
    l.contains a = true ↔ a ∈ l := by
  simp

end Snipe

/-- C3: the aggregator keeps, for each `(file, line, code, message)` key,
only its first occurrence in pipeline-emission order, drops subsequent
duplicates and performs no reordering beyond removal (the result is a
subsequence of the input with pairwise-distinct keys containing a
representative of every input key); two identical diagnostics collapse to
one. -/
theorem C3_aggregator_dedup :
    (∀ l : List Snipe.Diagnostic,
        Snipe.dedupDiagnostics l = Snipe.firstOccurrences l ∧
        List.Sublist (Snipe.dedupDiagnostics l) l ∧
        ((Snipe.dedupDiagnostics l).map Snipe.diagKey).Nodup ∧
        ∀ d ∈ l, Snipe.diagKey d ∈
          (Snipe.dedupDiagnostics l).map Snipe.diagKey) ∧
    ∀ d : Snipe.Diagnostic, Snipe.dedupDiagnostics [d, d] = [d] := by
  constructor
  · intro l
    refine ⟨?_, Snipe.dedupGo_sublist l [], (Snipe.dedupGo_keys_nodup l []).1, ?_⟩
    · rw [Snipe.dedupDiagnostics, Snipe.dedupGo_eq_firstOccurrences]
      congr 1
      apply List.filter_eq_self.mpr
      intro d _
      simp
    · intro d hd
      rcases Snipe.dedupGo_complete l [] d hd with h | h
      · cases h
      · exact h
  · intro d
    simp [Snipe.dedupDiagnostics, Snipe.dedupGo, Snipe.diagKey]

/-- Witness for C3 at a concrete diagnostic list. -/
theorem C3_aggregator_dedup_witness :
    Snipe.diagKey ⟨"a.py", 1, "WARNING", "m", "X"⟩ ∈
      (Snipe.dedupDiagnostics
        [⟨"a.py", 1, "WARNING", "m", "X"⟩,
         ⟨"a.py", 1, "WARNING", "m", "X"⟩]).map Snipe.diagKey :=
  (C3_aggregator_dedup.1
    [⟨"a.py", 1, "WARNING", "m", "X"⟩, ⟨"a.py", 1, "WARNING", "m", "X"⟩]).2.2.2
    ⟨"a.py", 1, "WARNING", "m", "X"⟩ (by simp)

/-- C5: the symbol-table builder rebuilds exactly when the requested root
differs from the last-built root, no cached result exists, a rebuild is
forced, or the current maximum modification time across recognized files
exceeds the recorded one; otherwise it returns the cached sequence and the
state unchanged.  The last two conjuncts characterize
`_max_repo_mtime` as that maximum. -/
theorem C5_rebuild_trigger (st : Snipe.ServerState) (repoPath : String)
    (force : Bool) (fs : List Snipe.FileEntry) (built : List Snipe.RepoSym) :
    (¬(st.repoPath ≠ some repoPath ∨ st.repoSymbols = [] ∨ force = true ∨
        st.repoMtime < Snipe.maxRepoMtime fs) →
      Snipe.ensureRepoSymbols st repoPath force fs built = (st.repoSymbols, st)) ∧
    ((st.repoPath ≠ some repoPath ∨ st.repoSymbols = [] ∨ force = true ∨
        st.repoMtime < Snipe.maxRepoMtime fs) →
      Snipe.ensureRepoSymbols st repoPath force fs built =
        (built, ⟨built, some repoPath, Snipe.maxRepoMtime fs⟩)) ∧
    (∀ fe ∈ fs, Snipe.walkIncluded fe = true → ∀ mt, fe.mtime = some mt →
      mt ≤ Snipe.maxRepoMtime fs) ∧
    (Snipe.maxRepoMtime fs = 0 ∨ ∃ fe ∈ fs, Snipe.walkIncluded fe = true ∧
      fe.mtime = some (Snipe.maxRepoMtime fs)) := by
  refine ⟨?_, ?_, ?_, ?_⟩
  · intro h
    rw [Snipe.ensureRepoSymbols, if_neg (by tauto)]
  · intro h
    rw [Snipe.ensureRepoSymbols, if_pos (by tauto)]
  · intro fe hfe hin mt hmt
    exact Snipe.maxMtGo_ub fs 0 fe hfe hin mt hmt
  · exact Snipe.maxMtGo_attained fs 0

/-- Witness for C5: an unchanged, already-indexed repository returns the
cached sequence without rebuilding. -/
theorem C5_rebuild_trigger_witness :
    Snipe.ensureRepoSymbols
        ⟨[⟨"x", "variable", none, "a.py", 1, "", none, []⟩], some "r", 10⟩
        "r" false [] [] =
      ([⟨"x", "variable", none, "a.py", 1, "", none, []⟩],
        ⟨[⟨"x", "variable", none, "a.py", 1, "", none, []⟩], some "r", 10⟩) :=
  (C5_rebuild_trigger
      ⟨[⟨"x", "variable", none, "a.py", 1, "", none, []⟩], some "r", 10⟩
      "r" false [] []).1 (by decide)

/-- C9 counterexample: the graph builder also connects two same-name nodes
declared in the *same* file, refuting "every edge connects two nodes ...
declared in different files": with two symbols named `x` in `a.py`, the
built graph has an edge both of whose endpoint nodes carry
`file_path = "a.py"`. -/
theorem C9_graph_counterexample :
    ∃ e ∈ (Snipe.build_repo_graph
        [⟨"x", "variable", none, "a.py", 1, "", none, []⟩,
         ⟨"x", "variable", none, "a.py", 2, "", none, []⟩]).2,
      ∃ n1 ∈ (Snipe.build_repo_graph
        [⟨"x", "variable", none, "a.py", 1, "", none, []⟩,
         ⟨"x", "variable", none, "a.py", 2, "", none, []⟩]).1,
        ∃ n2 ∈ (Snipe.build_repo_graph
          [⟨"x", "variable", none, "a.py", 1, "", none, []⟩,
           ⟨"x", "variable", none, "a.py", 2, "", none, []⟩]).1,
          n1.id = e.source ∧ n2.id = e.target ∧
          n1.file_path = n2.file_path ∧ n1.file_path = "a.py" := by
  decide

/-- C9 (amended): every edge of the repository-graph projection connects
two distinct nodes bearing the same symbol name (whether or not they are
declared in different files), and every pair of distinct same-name nodes —
in particular every same-name pair from different files — is connected by
an edge; the projection is a pure function of the builder's output. -/
theorem C9_graph_same_name_edges (symbols : List Snipe.RepoSym) :
    (∀ e ∈ (Snipe.build_repo_graph symbols).2,
      e.type = "REFERENCES" ∧
      ∃ n1 ∈ (Snipe.build_repo_graph symbols).1,
        ∃ n2 ∈ (Snipe.build_repo_graph symbols).1,
          n1.id = e.source ∧ n2.id = e.target ∧ n1.label = n2.label ∧
          n1.id ≠ n2.id) ∧
    (∀ n1 ∈ (Snipe.build_repo_graph symbols).1,
      ∀ n2 ∈ (Snipe.build_repo_graph symbols).1,
        n1.label = n2.label → n1.id ≠ n2.id →
        ∃ e ∈ (Snipe.build_repo_graph symbols).2,
          (e.source = n1.id ∧ e.target = n2.id) ∨
          (e.source = n2.id ∧ e.target = n1.id)) := by
  constructor
  · intro e he
    exact Snipe.graph_edges_sound _ (Snipe.nodesGo_ids_nodup symbols []).1 e he
  · intro n1 h1 n2 h2 hlab hne
    exact Snipe.graph_edges_complete _ n1 n2 h1 h2 hlab hne

/-- Witness for C9 (amended): two same-name nodes from different files are
connected. -/
theorem C9_graph_same_name_edges_witness :
    ∃ e ∈ (Snipe.build_repo_graph
        [⟨"foo", "function", none, "b.py", 3, "", none, []⟩,
         ⟨"foo", "variable", none, "c.py", 4, "", none, []⟩]).2,
      (e.source = "b.py:3:foo" ∧ e.target = "c.py:4:foo") ∨
      (e.source = "c.py:4:foo" ∧ e.target = "b.py:3:foo") :=
  (C9_graph_same_name_edges
      [⟨"foo", "function", none, "b.py", 3, "", none, []⟩,
       ⟨"foo", "variable", none, "c.py", 4, "", none, []⟩]).2
    ⟨"b.py:3:foo", "foo", "function", none, "b.py", 3⟩ (by decide)
    ⟨"c.py:4:foo", "foo", "variable", none, "c.py", 4⟩ (by decide)
    (by decide) (by decide)

/-- C10: `refresh` rebuilds and replaces the cached symbol list and the
last-built root but leaves the recorded maximum modification time
unchanged, so an immediately following analyze request whose current
maximum modification time exceeds that stale record performs another full
rebuild instead of returning the cache. -/
theorem C10_refresh_keeps_mtime (st : Snipe.ServerState) (repoPath : String)
    (built : List Snipe.RepoSym) :
    (Snipe.refreshEndpoint st repoPath built).2.repoMtime = st.repoMtime ∧
    (Snipe.refreshEndpoint st repoPath built).2.repoSymbols = built ∧
    (Snipe.refreshEndpoint st repoPath built).2.repoPath = some repoPath ∧
    (Snipe.refreshEndpoint st repoPath built).1 = (built.length, repoPath) ∧
    ∀ (fs : List Snipe.FileEntry) (built' : List Snipe.RepoSym),
      st.repoMtime < Snipe.maxRepoMtime fs →
      Snipe.ensureRepoSymbols (Snipe.refreshEndpoint st repoPath built).2
          repoPath false fs built' =
        (built', ⟨built', some repoPath, Snipe.maxRepoMtime fs⟩) := by
  refine ⟨rfl, rfl, rfl, rfl, ?_⟩
  intro fs built' hlt
  rw [Snipe.ensureRepoSymbols, if_pos]
  right; right; right
  exact hlt

/-- Witness for C10: after a refresh from the initial state, an analyze
request against the same files rebuilds again (the stale recorded mtime 0
is below the files' mtime 5). -/
theorem C10_refresh_keeps_mtime_witness :
    Snipe.ensureRepoSymbols
        (Snipe.refreshEndpoint Snipe.initialState "r"
          [⟨"x", "variable", none, "a.py", 1, "", none, []⟩]).2
        "r" false [⟨[], "a.py", some 5⟩] [] =
      ([], ⟨[], some "r", 5⟩) := by
  have h := (C10_refresh_keeps_mtime Snipe.initialState "r"
      [⟨"x", "variable", none, "a.py", 1, "", none, []⟩]).2.2.2.2
    [⟨[], "a.py", some 5⟩] [] (by decide)
  rw [h]
  decide

/-- C1 (code-bug demonstration): against a repo function `greet` with
parameters `[name (no default), greeting (has default)]` declared at
`utils.py:1`, a call with `arg_count = 1` — which the spec, and the repo's
own tests (`test_signature_drift_with_defaults`), require to produce zero
diagnostics — makes `check_function_signatures` emit one WARNING, because
the checker compares the argument count against the total parameter count
only (the extractor's Symbol model has no `has_default`/`is_variadic`
fields at all). -/
theorem C1_signature_checker_divergence :
    Snipe.check_function_signatures
        [⟨"greet", "call", none, 1, none, some 1⟩]
        [⟨"greet", "function", none, "utils.py", 1, "",
          none, [⟨"name", some "str"⟩, ⟨"greeting", some "str"⟩]⟩]
        "app.py" =
      [⟨"app.py", 1, "WARNING",
        "Function 'greet' expects 2 argument(s) but 1 provided (see utils.py:1).",
        "SNIPE_SIGNATURE_DRIFT"⟩] := by
  decide

/-- C2: for every `array_access` reference with a literal index `i` whose
name has a known declared size `n`, the bounds checker emits a diagnostic
iff `i < 0 ∨ i ≥ n`, and on emission it is the single ERROR citing the
index, the size and the declaring file/line; the per-reference results are
concatenated in order, and the size map merges repo and buffer
declarations with the last write winning. -/
theorem C2_bounds_check (repo : List Snipe.RepoSym) (buf : List Snipe.Symbol)
    (cf : String) :
    (∀ refs1 refs2 : List Snipe.Reference,
      Snipe.check_array_bounds (refs1 ++ refs2) buf repo cf =
        Snipe.check_array_bounds refs1 buf repo cf ++
        Snipe.check_array_bounds refs2 buf repo cf) ∧
    (∀ (r : Snipe.Reference) (i n : Int) (df : String) (dl : Nat),
      r.kind = "array_access" → r.index_value = some i →
      Snipe.sizesMap repo buf cf r.name = some (n, df, dl) →
      Snipe.check_array_bounds [r] buf repo cf =
        if i < 0 ∨ n ≤ i then
          [⟨cf, r.line, "ERROR",
            "Index " ++ toString i ++ " exceeds declared size " ++ toString n ++
              " for '" ++ r.name ++ "' (declared in " ++ df ++ ":" ++
              toString dl ++ ").", "SNIPE_ARRAY_BOUNDS"⟩]
        else []) ∧
    (∀ k, Snipe.sizesMap repo buf cf k =
      (((repo.filterMap Snipe.sizeEntryR) ++
          (buf.filterMap (Snipe.sizeEntryB cf))).reverse.find?
          (fun e => e.1 == k)).map (fun e => e.2)) := by
  refine ⟨?_, ?_, ?_⟩
  · intro refs1 refs2
    simp [Snipe.check_array_bounds, List.filterMap_append]
  · intro r i n df dl hk hi hs
    by_cases hr : i < 0 ∨ n ≤ i
    · simp [Snipe.check_array_bounds, Snipe.boundsEmit, hk, hi, hs, hr]
    · simp [Snipe.check_array_bounds, Snipe.boundsEmit, hk, hi, hs, hr]
  · intro k
    exact Snipe.sizesMap_lastWins repo buf cf k

/-- Witness for C2: declared size 10, literal index 12 yields exactly the
one ERROR mentioning 12 and 10. -/
theorem C2_bounds_check_witness :
    Snipe.check_array_bounds [⟨"arr", "array_access", none, 1, some 12, none⟩]
        [] [⟨"arr", "array", none, "core.c", 5, "", some 10, []⟩] "main.c" =
      [⟨"main.c", 1, "ERROR",
        "Index 12 exceeds declared size 10 for 'arr' (declared in core.c:5).",
        "SNIPE_ARRAY_BOUNDS"⟩] := by
  have h := (C2_bounds_check [⟨"arr", "array", none, "core.c", 5, "", some 10, []⟩]
      [] "main.c").2.1
    ⟨"arr", "array_access", none, 1, some 12, none⟩ 12 10 "core.c" 5
    rfl rfl (by decide)
  rw [h]
  decide

/-- C6: the type checker maps each name to the first repo symbol declared
in a different file than the current one (first match wins; same-file
entries are skipped), derives a reference's used type from its inferred
type or the buffer map (explicit buffer type, else the first buffer
symbol's kind), and for every read/array_access reference having both a
used type and a repo-declared type, emits the WARNING naming both types
and the declaring location iff the two differ after trimming whitespace;
per-reference results are concatenated in order. -/
theorem C6_type_mismatch_check (repo : List Snipe.RepoSym)
    (buf : List Snipe.Symbol) (cf : String) :
    (∀ refs1 refs2 : List Snipe.Reference,
      Snipe.check_type_mismatch (refs1 ++ refs2) buf repo cf =
        Snipe.check_type_mismatch refs1 buf repo cf ++
        Snipe.check_type_mismatch refs2 buf repo cf) ∧
    (∀ k, k ≠ "" → Snipe.repoByName repo cf k =
      (repo.filter (fun s => s.file_path != cf)).find? (fun s => s.name == k)) ∧
    (∀ k, Snipe.localTypes buf k =
      (match Snipe.localTypesPass1 buf k with
        | some t => some t
        | none => (buf.find? (fun s => s.name == k)).map (fun s => s.kind))) ∧
    (∀ k, Snipe.localTypesPass1 buf k =
      ((buf.filterMap (fun s => s.type.map (fun t => (s.name, t)))).reverse.find?
          (fun e => e.1 == k)).map (fun e => e.2)) ∧
    (∀ (r : Snipe.Reference) (rd : Snipe.RepoSym) (rt : String),
      (r.kind = "read" ∨ r.kind = "array_access") →
      Snipe.repoByName repo cf r.name = some rd →
      Snipe.refTypeOf (Snipe.localTypes buf) r = some rt →
      rt ≠ "" → Snipe.repoTypeOf rd ≠ "" →
      Snipe.check_type_mismatch [r] buf repo cf =
        if Snipe.pyStrip rt ≠ Snipe.pyStrip (Snipe.repoTypeOf rd) then
          [⟨cf, r.line, "WARNING",
            "'" ++ r.name ++ "' is declared as " ++ Snipe.repoTypeOf rd ++
              " in " ++ rd.file_path ++ ":" ++ toString rd.line ++
              " but used as " ++ rt ++ " here.", "SNIPE_TYPE_MISMATCH"⟩]
        else []) := by
  refine ⟨?_, ?_, ?_, ?_, ?_⟩
  · intro refs1 refs2
    simp [Snipe.check_type_mismatch, List.filterMap_append]
  · intro k hk
    exact Snipe.repoByName_firstWins repo cf k hk
  · intro k
    exact Snipe.localTypes_lookup buf k
  · intro k
    exact Snipe.localTypesPass1_lastWins buf k
  · intro r rd rt hkind hrd hrt hrtne hrepne
    by_cases hdiff : Snipe.pyStrip rt ≠ Snipe.pyStrip (Snipe.repoTypeOf rd)
    · simp [Snipe.check_type_mismatch, Snipe.typeEmit, hkind, hrd, hrt,
        hrtne, hrepne, hdiff]
    · simp [Snipe.check_type_mismatch, Snipe.typeEmit, hkind, hrd, hrt,
        hrtne, hrepne, hdiff]

/-- Witness for C6: a cross-file `int`-vs-`float` use produces exactly the
one WARNING. -/
theorem C6_type_mismatch_check_witness :
    Snipe.check_type_mismatch [⟨"x", "read", some "float", 7, none, none⟩]
        [] [⟨"x", "variable", some "int", "other.c", 10, "", none, []⟩]
        "current.c" =
      [⟨"current.c", 7, "WARNING",
        "'x' is declared as int in other.c:10 but used as float here.",
        "SNIPE_TYPE_MISMATCH"⟩] := by
  have h := (C6_type_mismatch_check
      [⟨"x", "variable", some "int", "other.c", 10, "", none, []⟩] []
      "current.c").2.2.2.2
    ⟨"x", "read", some "float", 7, none, none⟩
    ⟨"x", "variable", some "int", "other.c", 10, "", none, []⟩ "float"
    (Or.inl rfl) (by decide) (by decide) (by decide) (by decide)
  rw [h]
  decide

/-- C4: the overlay merge produces a working set in which every symbol
whose normalized path has a live buffer is one of the freshly extracted
overlay symbols (no stale symbol for a live file survives), every repo
symbol of a non-live file survives unchanged, every fresh overlay symbol
is present, and the merge is request-scoped: the state after `analyze` is
exactly the state `_ensure_repo_symbols` left, independent of the open
buffers. -/
theorem C4_overlay_precedence (env : Snipe.ParseEnv) (repoPath : String)
    (repoDicts : List Snipe.RepoSym) (buffers : List (String × String)) :
    (∀ s ∈ Snipe.mergeOverlay env repoPath repoDicts buffers,
      s ∈ Snipe.overlaySymbols env repoPath buffers ∨
        (s ∈ repoDicts ∧
          Snipe.replaceBackslash s.file_path ∉
            Snipe.overlayFiles repoPath buffers)) ∧
    (∀ s ∈ repoDicts,
      Snipe.replaceBackslash s.file_path ∉ Snipe.overlayFiles repoPath buffers →
      s ∈ Snipe.mergeOverlay env repoPath repoDicts buffers) ∧
    (∀ s ∈ Snipe.overlaySymbols env repoPath buffers,
      s ∈ Snipe.mergeOverlay env repoPath repoDicts buffers) ∧
    (∀ (st : Snipe.ServerState) (fs : List Snipe.FileEntry)
        (built : List Snipe.RepoSym),
      (Snipe.analyzeWorkingSet env st repoPath fs built buffers).2 =
        (Snipe.ensureRepoSymbols st repoPath false fs built).2) := by
  refine ⟨?_, ?_, ?_, ?_⟩
  · intro s hs
    by_cases hb : buffers.isEmpty
    · rw [Snipe.mergeOverlay, if_pos hb] at hs
      right
      refine ⟨hs, ?_⟩
      rw [List.isEmpty_iff.mp hb]
      simp [Snipe.overlayFiles]
    · rw [Snipe.mergeOverlay, if_neg hb] at hs
      rcases List.mem_append.mp hs with h | h
      · right
        obtain ⟨hmem, hcond⟩ := List.mem_filter.mp h
        refine ⟨hmem, ?_⟩
        intro hin
        rw [Bool.not_eq_eq_eq_not, Bool.not_true] at hcond
        rw [← Snipe.contains_eq_mem_str] at hin
        rw [hin] at hcond
        cases hcond
      · exact Or.inl h
  · intro s hsm hnin
    by_cases hb : buffers.isEmpty
    · rw [Snipe.mergeOverlay, if_pos hb]
      exact hsm
    · rw [Snipe.mergeOverlay, if_neg hb]
      refine List.mem_append.mpr (Or.inl (List.mem_filter.mpr ⟨hsm, ?_⟩))
      rw [Bool.not_eq_eq_eq_not, Bool.not_true]
      rw [← Snipe.contains_eq_mem_str] at hnin
      cases hc : (Snipe.overlayFiles repoPath buffers).contains
          (Snipe.replaceBackslash s.file_path) with
      | true => exact absurd hc hnin
      | false => rfl
  · intro s hso
    by_cases hb : buffers.isEmpty
    · rw [List.isEmpty_iff.mp hb] at hso
      simp [Snipe.overlaySymbols] at hso
    · rw [Snipe.mergeOverlay, if_neg hb]
      exact List.mem_append.mpr (Or.inr hso)
  · intro st fs built
    rfl

/-- Witness for C4: with a live buffer `x = 1` for `repo/u.py`, the repo
symbol of the untouched file `v.py` survives the merge. -/
theorem C4_overlay_precedence_witness :
    (⟨"y", "variable", none, "v.py", 1, "", none, []⟩ : Snipe.RepoSym) ∈
      Snipe.mergeOverlay Snipe.pyEnv "repo"
        [⟨"x", "variable", some "int", "u.py", 3, "", none, []⟩,
         ⟨"y", "variable", none, "v.py", 1, "", none, []⟩]
        [("repo/u.py", "x = 1")] :=
  (C4_overlay_precedence Snipe.pyEnv "repo"
      [⟨"x", "variable", some "int", "u.py", 3, "", none, []⟩,
       ⟨"y", "variable", none, "v.py", 1, "", none, []⟩]
      [("repo/u.py", "x = 1")]).2.1
    ⟨"y", "variable", none, "v.py", 1, "", none, []⟩ (by decide) (by decide)

/-- C7: `extract_symbols_from_source` and `extract_references_from_source`
are total functions of their input, and each failure mode yields an empty
sequence rather than an error: an unrecognized file extension, an
unavailable language grammar, and a parse without a root each produce
`[]`. -/
theorem C7_extraction_graceful (env : Snipe.ParseEnv) (source fp : String) :
    (Snipe.lowerStr (Snipe.pathSuffix fp) ≠ ".py" →
      Snipe.lowerStr (Snipe.pathSuffix fp) ≠ ".c" →
      Snipe.lowerStr (Snipe.pathSuffix fp) ≠ ".h" →
      Snipe.extract_symbols_from_source env source fp none = [] ∧
      Snipe.extract_references_from_source env source fp none = []) ∧
    (∀ l, Snipe.getParserFor env l = none →
      Snipe.extract_symbols_from_source env source fp (some l) = [] ∧
      Snipe.extract_references_from_source env source fp (some l) = []) ∧
    (∀ l p, Snipe.getParserFor env l = some p → env.parse p source = none →
      Snipe.extract_symbols_from_source env source fp (some l) = [] ∧
      Snipe.extract_references_from_source env source fp (some l) = []) := by
  refine ⟨?_, ?_, ?_⟩
  · intro h1 h2 h3
    constructor
    · simp [Snipe.extract_symbols_from_source, h1, h2, h3]
    · simp [Snipe.extract_references_from_source, h1, h2, h3]
  · intro l hl
    constructor
    · by_cases hpy : l = "python"
      · subst hpy
        simp [Snipe.extract_symbols_from_source, Snipe.extractPythonSymbols, hl]
      · by_cases hc : l = "c"
        · subst hc
          simp [Snipe.extract_symbols_from_source, Snipe.extractCSymbols, hl]
        · simp [Snipe.extract_symbols_from_source, hpy, hc]
    · simp [Snipe.extract_references_from_source, hl]
  · intro l p hp hparse
    constructor
    · by_cases hpy : l = "python"
      · subst hpy
        simp [Snipe.extract_symbols_from_source, Snipe.extractPythonSymbols,
          hp, hparse]
      · by_cases hc : l = "c"
        · subst hc
          simp [Snipe.extract_symbols_from_source, Snipe.extractCSymbols,
            hp, hparse]
        · simp [Snipe.extract_symbols_from_source, hpy, hc]
    · simp [Snipe.extract_references_from_source, hp, hparse]

/-- Witness for C7: an unknown extension with an empty environment yields
empty extraction results for both entry points. -/
theorem C7_extraction_graceful_witness :
    Snipe.extract_symbols_from_source
        ⟨fun _ => none, fun _ _ => none⟩ "garbage" "notes.txt" none = [] ∧
    Snipe.extract_references_from_source
        ⟨fun _ => none, fun _ _ => none⟩ "garbage" "notes.txt" none = [] :=
  (C7_extraction_graceful ⟨fun _ => none, fun _ _ => none⟩ "garbage"
      "notes.txt").1 (by decide) (by decide) (by decide)

/-- C8 counterexample: the C post-pass size fallback converts a function
Symbol into an array Symbol that keeps its params.  Parsing
`int foo(int a) ... return a + foo[0]; ...` (one line) extracts `foo` as a
function, and the post-pass then matches `foo[0]` on its declaration line,
forcing `kind = "array"` with `array_size = 0` while `params` stays
`[a]` — refuting "non-function Symbols carry an empty params sequence". -/
theorem C8_invariant_counterexample :
    Snipe.extract_symbols_from_source Snipe.cexEnv Snipe.cexSource "prog.c"
        (some "c") =
      [⟨"foo", "array", some "int", "prog.c", 1, "", some 0,
        [⟨"a", some "int"⟩]⟩] ∧
    ¬ (∀ s ∈ Snipe.extract_symbols_from_source Snipe.cexEnv Snipe.cexSource
          "prog.c" (some "c"),
        s.kind = "function" ∨ s.params = []) :=
  ⟨by decide, by decide⟩

/-- C8 (amended): every extracted Symbol satisfies `kind == "array"` iff
`array_size` is set, and every Symbol of kind variable/class/struct
carries an empty params sequence; an array Symbol may retain params when
the C post-pass converts a function Symbol whose declaration line matches
`name[<digits>]`. -/
theorem C8_symbol_invariants (env : Snipe.ParseEnv) (source fp : String)
    (language : Option String) :
    ∀ s ∈ Snipe.extract_symbols_from_source env source fp language,
      ((s.kind = "array") ↔ s.array_size ≠ none) ∧
      ((s.kind = "variable" ∨ s.kind = "class" ∨ s.kind = "struct") →
        s.params = []) := by
  intro s hs
  exact Snipe.extract_symbols_ok env source fp language s hs

/-- Witness for C8 (amended) at the Python buffer `x = 1`. -/
theorem C8_symbol_invariants_witness :
    ((Snipe.Symbol.kind ⟨"x", "variable", none, "u.py", 1, "", none, []⟩ =
        "array") ↔
      (Snipe.Symbol.array_size ⟨"x", "variable", none, "u.py", 1, "", none, []⟩ ≠
        none)) ∧
    ((Snipe.Symbol.kind ⟨"x", "variable", none, "u.py", 1, "", none, []⟩ =
          "variable" ∨
        Snipe.Symbol.kind ⟨"x", "variable", none, "u.py", 1, "", none, []⟩ =
          "class" ∨
        Snipe.Symbol.kind ⟨"x", "variable", none, "u.py", 1, "", none, []⟩ =
          "struct") →
      Snipe.Symbol.params ⟨"x", "variable", none, "u.py", 1, "", none, []⟩ = []) :=
  C8_symbol_invariants Snipe.pyEnv "x = 1" "u.py" none
    ⟨"x", "variable", none, "u.py", 1, "", none, []⟩ (by decide)
